import Mathlib

/-!
# Count-Min Sketch with conservative update, its rolling window and shards

A shallow embedding of `count_min_sketch.cpp` / `count_min_sketch.hpp`.

Machine integers are modelled by `Nat` / `Int` with explicit reductions:
`uint32_t` values are naturals reduced modulo `2^32`, `uint64_t` values are
naturals reduced modulo `2^64`, and an `int` converted to `uint32_t` is
reduced modulo `2^32`.  A `for` loop is modelled by the function giving the
loop state after `n` iterations.
-/

namespace CMS

/-- The constant `LONG_PRIME` of `count_min_sketch.hpp`. -/
def LONG_PRIME : Nat := 4294967311

/-- The largest `uint32_t`, `numeric_limits<uint32_t>::max()`. -/
def UINT32_MAX : Nat := 4294967295

/-- Conversion of an `int` to `uint32_t`: reduction modulo `2^32`. -/
def toU32 (c : Int) : Nat := (c % 4294967296).toNat

/-- Conversion of a `uint32_t` bit pattern to `int` (two's complement). -/
def toI32 (n : Nat) : Int :=
  if n % 4294967296 < 2147483648 then ((n % 4294967296 : Nat) : Int)
  else ((n % 4294967296 : Nat) : Int) - 4294967296

/-- The counter `C[i][j]` of a grid. -/
def cell (C : List (List Nat)) (i j : Nat) : Nat := (C.getD i []).getD j 0

/-- The assignment `C[i][j] = v` on a grid. -/
def setCell (C : List (List Nat)) (i j v : Nat) : List (List Nat) :=
  C.set i ((C.getD i []).set j v)

/-- The fields of `class CountMinSketch` that the operations read or write:
width `w`, depth `d`, running `total`, the counter grid `C` (`d` rows of `w`
counters) and the `d` hash-parameter pairs `hashes[j] = {aj, bj}`. -/
structure CountMinSketch where
  w : Nat
  d : Nat
  total : Nat
  C : List (List Nat)
  hashes : List (Nat × Nat)
deriving DecidableEq, Repr

namespace CountMinSketch

/-- The state the constructor leaves behind: `total = 0`, a zeroed `d × w`
grid and one hash pair per row.  The width and depth (computed in floating
point from `eps` and `gamma`) and the pairs drawn by `genajbj` from `rand()`
are taken as parameters. -/
def init (w d : Nat) (hashes : List (Nat × Nat)) : CountMinSketch :=
  { w := w, d := d, total := 0,
    C := List.replicate d (List.replicate w 0),
    hashes := hashes }

/-- The expression `(hashes[j][0]*item+hashes[j][1])%LONG_PRIME%w`, evaluated
in `uint64_t` arithmetic (the product and the sum wrap modulo `2^64`). -/
def hashval (s : CountMinSketch) (j item : Nat) : Nat :=
  (((s.hashes.getD j (0, 0)).1 * item + (s.hashes.getD j (0, 0)).2)
      % 18446744073709551616) % LONG_PRIME % s.w

/-- The variable `minval` of `estimate` after `n` iterations of its loop. -/
def estimateLoop (s : CountMinSketch) (item : Nat) : Nat → Nat
  | 0 => UINT32_MAX
  | n + 1 => min (estimateLoop s item n) (cell s.C n (hashval s n item))

/-- `CountMinSketch::estimate(uint64_t item)`. -/
def estimate (s : CountMinSketch) (item : Nat) : Nat :=
  estimateLoop s item s.d

/-- The grid of `update` after `n` iterations of its loop, where `nv` is the
value of the `uint32_t` expression `count + c`.  The column is stored in a
`uint32_t` variable, hence the reduction modulo `2^32`. -/
def updateLoop (s : CountMinSketch) (item nv : Nat) : Nat → List (List Nat)
  | 0 => s.C
  | n + 1 =>
    if cell (updateLoop s item nv n) n (hashval s n item % 4294967296) < nv then
      setCell (updateLoop s item nv n) n (hashval s n item % 4294967296) nv
    else updateLoop s item nv n

/-- `CountMinSketch::update(uint64_t item, int c)`. -/
def update (s : CountMinSketch) (item : Nat) (c : Int) : CountMinSketch :=
  { s with
    total := (s.total + toU32 c) % 4294967296,
    C := updateLoop s item ((s.estimate item + toU32 c) % 4294967296) s.d }

/-- The grid after `n` iterations of the inner loop of `reset` on row `i`. -/
def resetRow (C : List (List Nat)) (i : Nat) : Nat → List (List Nat)
  | 0 => C
  | n + 1 => setCell (resetRow C i n) i n 0

/-- The grid after `n` iterations of the outer loop of `reset`. -/
def resetLoop (s : CountMinSketch) : Nat → List (List Nat)
  | 0 => s.C
  | n + 1 => resetRow (resetLoop s n) n s.w

/-- `CountMinSketch::reset()`. -/
def reset (s : CountMinSketch) : CountMinSketch :=
  { s with C := resetLoop s s.d }

/-- `CountMinSketch::totalcount()`. -/
def totalcount (s : CountMinSketch) : Nat := s.total

/-- Shape of the data the class works on: a positive `uint32_t` width, a
grid of `d` rows of `w` counters, and `d` hash pairs. -/
def WF (s : CountMinSketch) : Prop :=
  0 < s.w ∧ s.w < 4294967296 ∧ s.C.length = s.d ∧
  (∀ row ∈ s.C, row.length = s.w) ∧ s.hashes.length = s.d

instance (s : CountMinSketch) : Decidable (WF s) := by
  unfold WF; infer_instance

/-- Run a sequence of `update(item, c)` calls, first call first. -/
def runUpdates (s : CountMinSketch) : List (Nat × Int) → CountMinSketch
  | [] => s
  | u :: us => runUpdates (s.update u.1 u.2) us

end CountMinSketch

/-- The sum of the counts of the calls of a sequence whose item is `x`. -/
def trueCount (x : Nat) : List (Nat × Int) → Int
  | [] => 0
  | u :: us => (if u.1 = x then u.2 else 0) + trueCount x us

/-- The sum of all counts of a sequence of calls. -/
def totalWeight : List (Nat × Int) → Int
  | [] => 0
  | u :: us => u.2 + totalWeight us

/-- The calls that can be made on a `CountMinSketch` after construction. -/
inductive Call where
  | update (item : Nat) (c : Int)
  | estimate (item : Nat)
  | reset
deriving DecidableEq, Repr

/-- The state after one call; `estimate` writes no member of the object. -/
def CountMinSketch.step (s : CountMinSketch) : Call → CountMinSketch
  | Call.update item c => s.update item c
  | Call.estimate _ => s
  | Call.reset => s.reset

/-- The state after a sequence of calls, first call first. -/
def CountMinSketch.runCalls (s : CountMinSketch) : List Call → CountMinSketch
  | [] => s
  | k :: ks => CountMinSketch.runCalls (s.step k) ks

/-- The integer sum of the counts passed to `update` in a sequence of calls. -/
def sumCounts : List Call → Int
  | [] => 0
  | Call.update _ c :: ks => c + sumCounts ks
  | Call.estimate _ :: ks => sumCounts ks
  | Call.reset :: ks => sumCounts ks

/-- The `double` nearest to the literal `0.009` in the constructor's guard,
`5188146770730811 / 2^59`. -/
def DOUBLE_0_009 : ℚ := 5188146770730811 / 576460752303423488

/-- The `float` nearest to `0.0095`, `10200547 / 2^30`. -/
def FLOAT_0_0095 : ℚ := 10200547 / 1073741824

/-- The `float` nearest to `0.01` (the default `eps` and `gamma`),
`5368709 / 2^29`. -/
def FLOAT_0_01 : ℚ := 5368709 / 536870912

/-- The `float` nearest to `0.009`, `2415919 / 2^28`. -/
def FLOAT_0_009 : ℚ := 2415919 / 268435456

/-- The parameter check at the head of the `CountMinSketch` constructor:
`true` when construction goes on, `false` when it prints a message and calls
`exit(EXIT_FAILURE)`.  A finite `float` is the rational it denotes; the
comparisons (after promotion to `double`) are exact. -/
def CountMinSketch.ctorAccepts (ep gamm : ℚ) : Bool :=
  if !(decide (DOUBLE_0_009 ≤ ep) && decide (ep < 1)) then false
  else if !(decide (0 < gamm) && decide (gamm < 1)) then false
  else true

/-- The members of `class CircularCMS`. -/
structure CircularCMS where
  counters_ : List CountMinSketch
  num_counter_ : Int
  current_counter_index_ : Int
deriving DecidableEq, Repr

namespace CircularCMS

/-- The state the constructor leaves behind: `num_counter` default-constructed
sketches and `current_counter_index_ = -1`.  The width and depth of a
default sketch and the hash pairs drawn for bucket `i` are parameters. -/
def init (num_counter : Int) (w d : Nat) (hs : Nat → List (Nat × Nat)) : CircularCMS :=
  { counters_ := (List.range num_counter.toNat).map (fun i => CountMinSketch.init w d (hs i)),
    num_counter_ := num_counter,
    current_counter_index_ := -1 }

/-- The element `counters_[idx]`; `none` when the index is outside the
vector, where the access has no defined behaviour. -/
def counterAt (s : CircularCMS) (idx : Int) : Option CountMinSketch :=
  if 0 ≤ idx then s.counters_[idx.toNat]? else none

/-- `CircularCMS::update(item, counter_index, c)`: the new state and the
returned `int`, or `none` when the call indexes `counters_` out of range. -/
def update (s : CircularCMS) (item : Nat) (counter_index : Int) (c : Int) :
    Option (CircularCMS × Int) :=
  if counter_index > (s.counters_.length : Int) then some (s, -1)
  else
    let rotated : Option CircularCMS :=
      if counter_index ≠ s.current_counter_index_ then
        (s.counterAt counter_index).map fun k =>
          { s with
            current_counter_index_ := counter_index,
            counters_ := s.counters_.set counter_index.toNat k.reset }
      else some s
    rotated.bind fun s1 =>
      (s1.counterAt s1.current_counter_index_).map fun k =>
        ({ s1 with
           counters_ := s1.counters_.set s1.current_counter_index_.toNat (k.update item c) }, 0)

/-- `CircularCMS::estimate(item)`: `count += counters_[i]->estimate(item)`
over the vector, the sum being formed in `uint32_t` and stored in an `int`. -/
def estimate (s : CircularCMS) (item : Nat) : Int :=
  s.counters_.foldl (fun count k => toI32 (toU32 count + k.estimate item)) 0

/-- Five hash pairs, one per row of a default sketch. -/
def hashes5 : List (Nat × Nat) := [(1, 1), (2, 1), (3, 1), (4, 1), (5, 1)]

/-- A fresh sketch of the default parameters `eps = gamma = 0.01`, that is of
width 272 and depth 5. -/
def sketch0 : CountMinSketch := CountMinSketch.init 272 5 hashes5

/-- A window of three buckets, each a fresh default sketch. -/
def window3 : CircularCMS := init 3 272 5 (fun _ => hashes5)

/-- The state of `window3` after `update(97, 0, 5)`. -/
def window3a : CircularCMS :=
  { counters_ := [(sketch0.reset).update 97 5, sketch0, sketch0],
    num_counter_ := 3,
    current_counter_index_ := 0 }

/-- The state of `window3a` after `update(98, 1, 1)`. -/
def window3b : CircularCMS :=
  { counters_ := [(sketch0.reset).update 97 5, (sketch0.reset).update 98 1, sketch0],
    num_counter_ := 3,
    current_counter_index_ := 1 }

/-- The state of `window3b` after `update(97, 0, 2)`. -/
def window3c : CircularCMS :=
  { counters_ :=
      [((((sketch0.reset).update 97 5).reset).update 97 2), (sketch0.reset).update 98 1,
        sketch0],
    num_counter_ := 3,
    current_counter_index_ := 0 }

/-- A window of two buckets, each a fresh default sketch. -/
def window2 : CircularCMS := init 2 272 5 (fun _ => hashes5)

/-- The state of `window2` after `update(0, 0, 2147483647)`. -/
def window2a : CircularCMS :=
  { counters_ := [(sketch0.reset).update 0 2147483647, sketch0],
    num_counter_ := 2,
    current_counter_index_ := 0 }

/-- The state of `window2a` after `update(0, 1, 1)`. -/
def window2b : CircularCMS :=
  { counters_ := [(sketch0.reset).update 0 2147483647, (sketch0.reset).update 0 1],
    num_counter_ := 2,
    current_counter_index_ := 1 }

end CircularCMS

/-- Conversion of an `int` to `uint64_t`: reduction modulo `2^64`. -/
def toU64 (c : Int) : Nat := (c % 18446744073709551616).toNat

/-- The `int` a `char` holding the byte `b` converts to.  Whether `char` is
signed is fixed by the platform (signed on x86 and x86-64, unsigned on ARM
Linux); where it is signed, a byte of `0x80` or more is negative. -/
def charToInt (charSigned : Bool) (b : Nat) : Int :=
  if charSigned = true ∧ 128 ≤ b then (b : Int) - 256 else (b : Int)

/-- The variable `hash` of `hashstr` when its loop ends, started at `hash` on
the bytes `str` (followed by the terminating NUL): `c = *str++` ends the loop
at a zero byte, and `hash = ((hash << 5) + hash) + c` is `uint64_t`
arithmetic. -/
def CountMinSketch.hashstrLoop (charSigned : Bool) : Nat → List Nat → Nat
  | hash, [] => hash
  | hash, b :: bs =>
    if b = 0 then hash
    else
      CountMinSketch.hashstrLoop charSigned
        ((((hash * 32) % 18446744073709551616 + hash) % 18446744073709551616
            + toU64 (charToInt charSigned b)) % 18446744073709551616) bs

/-- `CountMinSketch::hashstr(const char *str)`. -/
def CountMinSketch.hashstr (charSigned : Bool) (str : List Nat) : Nat :=
  CountMinSketch.hashstrLoop charSigned 5381 str

/-- `CountMinSketch::update(const char *str, int c)`. -/
def CountMinSketch.updateStr (s : CountMinSketch) (charSigned : Bool) (str : List Nat)
    (c : Int) : CountMinSketch :=
  s.update (CountMinSketch.hashstr charSigned str) c

/-- `CountMinSketch::estimate(const char *str)`. -/
def CountMinSketch.estimateStr (s : CountMinSketch) (charSigned : Bool) (str : List Nat) : Nat :=
  s.estimate (CountMinSketch.hashstr charSigned str)

/-- The djb2 recurrence in the words of the specification: `h_0 = 5381` and
`h_{i+1} = (33 * h_i + s_i) mod 2^64`, over the values `s_0, ..., s_{n-1}`. -/
def djb2Spec (vals : List Int) : Int :=
  vals.foldl (fun h v => (33 * h + v) % 18446744073709551616) 5381

/-- The object after `CircularCMS::estimate(item)` and the value it returns;
the method assigns to no member. -/
def CircularCMS.estimateCall (s : CircularCMS) (item : Nat) : CircularCMS × Int :=
  (s, s.estimate item)

/-- The members of `class MultiCMS`. -/
structure MultiCMS where
  num_counter_ : Int
  num_thread_ : Int
  count_interval_seconds_ : Int
  counters_ : List CircularCMS
deriving DecidableEq, Repr

/-- How the `MultiCMS` constructor can end without building the shards:
`rejected` is the branch that prints the error message and returns;
`undefinedBehaviour` is a run in which `3600.0 / count_interval_seconds` is
not finite, so that its conversion to `int` is not defined. -/
inductive CtorError where
  | rejected
  | undefinedBehaviour
deriving DecidableEq, Repr

/-- Addition of two `int`s; `none` when the sum leaves the range of `int`,
where the addition has no defined behaviour. -/
def addInt32 (a b : Int) : Option Int :=
  if -2147483648 ≤ a + b ∧ a + b < 2147483648 then some (a + b) else none

namespace MultiCMS

/-- The value of `int(ceil(3600.0 / count_interval_seconds))` for an interval
from 1 to 3600.  The quotient of the two doubles is either an integer, then
computed exactly, or at least `1/3600` away from every integer, so rounding
never moves it across one, and `ceil` gives the ceiling of the exact
quotient, here written with integer division. -/
def bucketCount (count_interval_seconds : Int) : Int :=
  (3600 + count_interval_seconds - 1) / count_interval_seconds

/-- The expression `(ts % 3600) / count_interval_seconds_` of `update`, with
the truncating `%` and `/` of C++. -/
def bucketIndex (ts count_interval_seconds : Int) : Int :=
  Int.tdiv (Int.tmod ts 3600) count_interval_seconds

/-- The `MultiCMS` constructor.  The width and depth of a default sketch and
the hash pairs drawn for bucket `i` of shard `t`, `hs t i`, are parameters. -/
def construct (num_thread count_interval_seconds : Int) (w d : Nat)
    (hs : Nat → Nat → List (Nat × Nat)) : Except CtorError MultiCMS :=
  if num_thread < 0 ∨ count_interval_seconds < 0 ∨ count_interval_seconds > 3600 then
    Except.error CtorError.rejected
  else if count_interval_seconds = 0 then
    Except.error CtorError.undefinedBehaviour
  else
    Except.ok
      { num_counter_ := bucketCount count_interval_seconds,
        num_thread_ := num_thread,
        count_interval_seconds_ := count_interval_seconds,
        counters_ := (List.range num_thread.toNat).map fun t =>
          CircularCMS.init (bucketCount count_interval_seconds) w d (hs t) }

/-- `MultiCMS::update(thread_id, item, c)` at clock value `ts = time(NULL)`:
the new state and the returned `int`, or `none` when the call divides by zero
or indexes a vector out of range. -/
def update (s : MultiCMS) (ts : Int) (thread_id : Int) (item : Nat) (c : Int) :
    Option (MultiCMS × Int) :=
  if s.count_interval_seconds_ = 0 then none
  else if thread_id < 0 ∨ thread_id ≥ s.num_thread_ ∨
      bucketIndex ts s.count_interval_seconds_ ≥ s.num_counter_ then
    some (s, -1)
  else
    (s.counters_[thread_id.toNat]?).bind fun win =>
      (win.update item (bucketIndex ts s.count_interval_seconds_) c).map fun r =>
        ({ s with counters_ := s.counters_.set thread_id.toNat r.1 }, r.2)

/-- `MultiCMS::estimate(item)`: `count += counters_[i]->estimate(item)` over
the shards, an addition of `int`s. -/
def estimate (s : MultiCMS) (item : Nat) : Option Int :=
  s.counters_.foldl (fun acc win => acc.bind fun count => addInt32 count (win.estimate item))
    (some 0)

/-- The object after `MultiCMS::estimate(item)` and the value it returns; the
method assigns to no member. -/
def estimateCall (s : MultiCMS) (item : Nat) : MultiCMS × Option Int :=
  (s, s.estimate item)

/-- Shape of a constructed `MultiCMS`: an interval from 1 to 3600, one window
per shard, and `num_counter_` buckets in every window. -/
def WF (s : MultiCMS) : Prop :=
  1 ≤ s.count_interval_seconds_ ∧ s.count_interval_seconds_ ≤ 3600 ∧
  (s.counters_.length : Int) = s.num_thread_ ∧
  s.num_counter_ = bucketCount s.count_interval_seconds_ ∧
  ∀ win ∈ s.counters_, (win.counters_.length : Int) = s.num_counter_

/-- A window of 60 buckets, each a fresh default sketch. -/
def win60 : CircularCMS := CircularCMS.init 60 272 5 (fun _ => CircularCMS.hashes5)

/-- Two shards with an interval of 60 seconds, hence 60 buckets per window,
every bucket a fresh default sketch. -/
def shard2 : MultiCMS :=
  { num_counter_ := 60,
    num_thread_ := 2,
    count_interval_seconds_ := 60,
    counters_ := [win60, win60] }

/-- The state of `win60` after `update(97, 2, 5)`. -/
def win60a : CircularCMS :=
  { counters_ := win60.counters_.set 2 ((CircularCMS.sketch0.reset).update 97 5),
    num_counter_ := 60,
    current_counter_index_ := 2 }

/-- The state of `shard2` after `update(1, 97, 5)` at clock value 125, which
falls in bucket 2. -/
def shard2a : MultiCMS :=
  { num_counter_ := 60,
    num_thread_ := 2,
    count_interval_seconds_ := 60,
    counters_ := [win60, win60a] }

end MultiCMS

end CMS

open CMS CMS.CountMinSketch

namespace CMS

theorem cell_setCell (C : List (List Nat)) (i j v i' j' : Nat) :
    cell (setCell C i j v) i' j' =
      if i' = i ∧ j' = j ∧ i < C.length ∧ j < (C.getD i []).length then v
      else cell C i' j' := by
  unfold cell setCell
  simp only [List.getD_eq_getElem?_getD, List.getElem?_set]
  by_cases hi : i = i'
  · subst hi
    by_cases hl : i < C.length
    · have hC : C[i]?.getD [] = C[i] := by simp [hl]
      rw [hC]
      by_cases hj : j = j'
      · subst hj
        by_cases hjl : j < (C[i]).length
        · simp [hl, hjl, List.getElem?_set]
        · have hn : (C[i])[j]? = none := by simp; omega
          simp [hl, hjl, List.getElem?_set, hn]
      · have hj' : ¬ j' = j := fun h => hj h.symm
        simp [hl, hj, hj', List.getElem?_set]
    · have hC : C[i]? = none := by simp; omega
      simp [hl, hC]
  · have hi' : ¬ i' = i := fun h => hi h.symm
    simp [hi, hi']

/-! ## Grid lemmas -/

theorem setCell_length (C : List (List Nat)) (i j v : Nat) :
    (setCell C i j v).length = C.length := by
  simp [setCell]

theorem setCell_row_length (C : List (List Nat)) (i j v w : Nat)
    (h : ∀ row ∈ C, row.length = w) : ∀ row ∈ setCell C i j v, row.length = w := by
  intro row hrow
  unfold setCell at hrow
  by_cases hi : i < C.length
  · rcases List.mem_or_eq_of_mem_set hrow with h1 | h1
    · exact h row h1
    · subst h1
      rw [List.length_set]
      have : C.getD i [] = C[i] := by simp [List.getD_eq_getElem?_getD, hi]
      rw [this]
      exact h _ (List.getElem_mem hi)
  · rw [List.set_eq_of_length_le (by omega)] at hrow
    exact h row hrow

theorem getD_row_length (C : List (List Nat)) (i w : Nat)
    (h : ∀ row ∈ C, row.length = w) (hi : i < C.length) : (C.getD i []).length = w := by
  have : C.getD i [] = C[i] := by simp [List.getD_eq_getElem?_getD, hi]
  rw [this]
  exact h _ (List.getElem_mem hi)

theorem cell_setCell_of_lt (C : List (List Nat)) (w i j v i' j' : Nat)
    (hrows : ∀ row ∈ C, row.length = w) (hi : i < C.length) (hj : j < w) :
    cell (setCell C i j v) i' j' = if i' = i ∧ j' = j then v else cell C i' j' := by
  rw [cell_setCell, getD_row_length C i w hrows hi]
  by_cases h : i' = i ∧ j' = j
  · rw [if_pos h, if_pos ⟨h.1, h.2, hi, hj⟩]
  · rw [if_neg h, if_neg (fun h2 => h ⟨h2.1, h2.2.1⟩)]

theorem cell_le_setCell (C : List (List Nat)) (i j v i' j' : Nat) (h : cell C i j < v) :
    cell C i' j' ≤ cell (setCell C i j v) i' j' := by
  rw [cell_setCell]
  split_ifs with h1
  · obtain ⟨rfl, rfl, _, _⟩ := h1
    omega
  · exact le_refl _

namespace CountMinSketch

theorem updateLoop_length (s : CountMinSketch) (item nv n : Nat) :
    (updateLoop s item nv n).length = s.C.length := by
  induction n with
  | zero => rfl
  | succ n ih =>
    simp only [updateLoop]
    split_ifs
    · rw [setCell_length, ih]
    · exact ih

theorem updateLoop_rows (s : CountMinSketch) (item nv n : Nat)
    (h : ∀ row ∈ s.C, row.length = s.w) :
    ∀ row ∈ updateLoop s item nv n, row.length = s.w := by
  induction n with
  | zero => exact h
  | succ n ih =>
    simp only [updateLoop]
    split_ifs
    · exact setCell_row_length _ _ _ _ _ ih
    · exact ih

theorem updateLoop_mono (s : CountMinSketch) (item nv n i j : Nat) :
    cell s.C i j ≤ cell (updateLoop s item nv n) i j := by
  induction n with
  | zero => exact le_refl _
  | succ n ih =>
    simp only [updateLoop]
    split_ifs with h
    · exact le_trans ih (cell_le_setCell _ _ _ _ _ _ h)
    · exact ih

theorem hashval_lt (s : CountMinSketch) (h : s.WF) (j item : Nat) :
    hashval s j item < s.w := by
  unfold hashval
  exact Nat.mod_lt _ h.1

theorem hashval_mod (s : CountMinSketch) (h : s.WF) (j item : Nat) :
    hashval s j item % 4294967296 = hashval s j item := by
  have h1 := hashval_lt s h j item
  have h2 := h.2.1
  exact Nat.mod_eq_of_lt (by omega)

/-- The grid after `n` iterations of the loop of `update`. -/
theorem updateLoop_cell (s : CountMinSketch) (h : s.WF) (item nv n : Nat) (hn : n ≤ s.d) :
    ∀ i j : Nat, cell (updateLoop s item nv n) i j =
      if i < n ∧ j = hashval s i item then max (cell s.C i j) nv else cell s.C i j := by
  induction n with
  | zero => simp [updateLoop]
  | succ n ih =>
    have ih := ih (by omega)
    intro i j
    have ihn : cell (updateLoop s item nv n) n (hashval s n item) =
        cell s.C n (hashval s n item) := by
      rw [ih]
      simp
    have hlen : n < (updateLoop s item nv n).length := by
      rw [updateLoop_length, h.2.2.1]; omega
    have hrows := updateLoop_rows s item nv n h.2.2.2.1
    simp only [updateLoop, hashval_mod s h, ihn]
    by_cases hlt : cell s.C n (hashval s n item) < nv
    · rw [if_pos hlt, cell_setCell_of_lt _ s.w _ _ _ _ _ hrows hlen (hashval_lt s h n item), ih]
      by_cases h1 : i = n ∧ j = hashval s n item
      · obtain ⟨rfl, rfl⟩ := h1
        simp
        omega
      · rw [if_neg h1]
        by_cases h2 : i < n ∧ j = hashval s i item
        · rw [if_pos h2, if_pos ⟨by omega, h2.2⟩]
        · rw [if_neg h2, if_neg]
          rintro ⟨h3, h4⟩
          rcases Nat.lt_succ_iff_lt_or_eq.mp h3 with h5 | h5
          · exact h2 ⟨h5, h4⟩
          · subst h5; exact h1 ⟨rfl, h4⟩
    · rw [if_neg hlt, ih]
      by_cases h2 : i < n ∧ j = hashval s i item
      · rw [if_pos h2, if_pos ⟨by omega, h2.2⟩]
      · rw [if_neg h2]
        by_cases h1 : i = n ∧ j = hashval s n item
        · obtain ⟨rfl, rfl⟩ := h1
          simp
          omega
        · rw [if_neg]
          rintro ⟨h3, h4⟩
          rcases Nat.lt_succ_iff_lt_or_eq.mp h3 with h5 | h5
          · exact h2 ⟨h5, h4⟩
          · subst h5; exact h1 ⟨rfl, h4⟩

theorem estimateLoop_le_max (s : CountMinSketch) (item n : Nat) :
    estimateLoop s item n ≤ UINT32_MAX := by
  induction n with
  | zero => exact le_refl _
  | succ n ih => exact le_trans (Nat.min_le_left _ _) ih

theorem estimateLoop_le_cell (s : CountMinSketch) (item n : Nat) :
    ∀ i, i < n → estimateLoop s item n ≤ cell s.C i (hashval s i item) := by
  induction n with
  | zero => intro i hi; omega
  | succ n ih =>
    intro i hi
    simp only [estimateLoop]
    rcases Nat.lt_succ_iff_lt_or_eq.mp hi with h | h
    · exact le_trans (Nat.min_le_left _ _) (ih i h)
    · subst h; exact Nat.min_le_right _ _

theorem le_estimateLoop (s : CountMinSketch) (item v n : Nat) (hv : v ≤ UINT32_MAX)
    (h : ∀ i, i < n → v ≤ cell s.C i (hashval s i item)) : v ≤ estimateLoop s item n := by
  induction n with
  | zero => exact hv
  | succ n ih =>
    simp only [estimateLoop]
    exact Nat.le_min.mpr ⟨ih (fun i hi => h i (by omega)), h n (by omega)⟩

theorem update_WF (s : CountMinSketch) (h : s.WF) (item : Nat) (c : Int) :
    (update s item c).WF := by
  obtain ⟨h1, h2, h3, h4, h5⟩ := h
  refine ⟨h1, h2, ?_, ?_, h5⟩
  · show (updateLoop s item _ s.d).length = s.d
    rw [updateLoop_length, h3]
  · exact updateLoop_rows s item _ s.d h4

theorem update_cell (s : CountMinSketch) (h : s.WF) (item : Nat) (c : Int) (i j : Nat) :
    cell (update s item c).C i j =
      if i < s.d ∧ j = hashval s i item then
        max (cell s.C i j) ((s.estimate item + toU32 c) % 4294967296)
      else cell s.C i j :=
  updateLoop_cell s h item _ s.d (le_refl _) i j

theorem update_mono (s : CountMinSketch) (item : Nat) (c : Int) (i j : Nat) :
    cell s.C i j ≤ cell (update s item c).C i j :=
  updateLoop_mono s item _ s.d i j

theorem runUpdates_mono (ups : List (Nat × Int)) :
    ∀ (s : CountMinSketch) (i j : Nat), cell s.C i j ≤ cell (runUpdates s ups).C i j := by
  induction ups with
  | nil => intro s i j; exact le_refl _
  | cons u us ih =>
    intro s i j
    exact le_trans (update_mono s u.1 u.2 i j) (ih _ i j)

theorem newval_cast (e : Nat) (c : Int) :
    (((e + toU32 c) % 4294967296 : Nat) : Int) = ((e : Int) + c) % 4294967296 := by
  unfold toU32
  omega

theorem totalWeight_nonneg (ups : List (Nat × Int)) (h : ∀ u ∈ ups, 0 < u.2) :
    0 ≤ totalWeight ups := by
  induction ups with
  | nil => exact le_refl _
  | cons u us ih =>
    have h1 := h u (List.mem_cons_self _ _)
    have h2 := ih (fun v hv => h v (List.mem_cons_of_mem _ hv))
    simp only [totalWeight]
    omega

theorem totalWeight_append (xs ys : List (Nat × Int)) :
    totalWeight (xs ++ ys) = totalWeight xs + totalWeight ys := by
  induction xs with
  | nil => simp [totalWeight]
  | cons u us ih =>
    show u.2 + totalWeight (us ++ ys) = u.2 + totalWeight us + totalWeight ys
    rw [ih]; omega

theorem cell_replicate (d w i j : Nat) :
    cell (List.replicate d (List.replicate w 0)) i j = 0 := by
  unfold cell
  simp only [List.getD_eq_getElem?_getD, List.getElem?_replicate]
  by_cases hi : i < d
  · by_cases hj : j < w
    · simp [hi, hj, List.getElem?_replicate]
    · simp [hi, hj, List.getElem?_replicate]
  · simp [hi]

theorem init_WF (w d : Nat) (hashes : List (Nat × Nat)) (hw : 0 < w) (hw2 : w < 4294967296)
    (hl : hashes.length = d) : (init w d hashes).WF := by
  refine ⟨hw, hw2, ?_, ?_, hl⟩
  · simp [init]
  · intro row hrow
    simp only [init] at hrow
    rw [List.eq_of_mem_replicate hrow]
    simp [init]

/-- One `update` with a positive count that keeps the inserted weight below
`2^32` preserves the two invariants behind the never-underestimate property:
every counter is at most the inserted weight, and every projected cell of an
item is at least the weight inserted for that item. -/
theorem update_step_inv (s : CountMinSketch) (h : s.WF) (hd : 1 ≤ s.d) (item : Nat) (c T : Int)
    (hc : 0 < c) (hT : T + c < 4294967296) (hcells : ∀ i j, (cell s.C i j : Int) ≤ T) :
    (∀ i j, (cell (update s item c).C i j : Int) ≤ T + c) ∧
    (∀ (x : Nat) (t : Int), (∀ i, i < s.d → t ≤ (cell s.C i (hashval s i x) : Int)) →
      ∀ i, i < s.d →
        t + (if item = x then c else 0) ≤ (cell (update s item c).C i (hashval s i x) : Int)) := by
  have hest : (s.estimate item : Int) ≤ T := by
    have := estimateLoop_le_cell s item s.d 0 (by omega)
    have := hcells 0 (hashval s 0 item)
    unfold estimate
    omega
  have hnv : (((s.estimate item + toU32 c) % 4294967296 : Nat) : Int) = s.estimate item + c := by
    rw [newval_cast]
    have : (0 : Int) ≤ s.estimate item := Int.ofNat_nonneg _
    omega
  constructor
  · intro i j
    rw [update_cell s h]
    have := hcells i j
    split_ifs
    · rw [Nat.cast_max, hnv]
      exact max_le (by omega) (by omega)
    · omega
  · intro x t ht i hi
    by_cases hx : item = x
    · subst hx
      rw [if_pos rfl, update_cell s h, if_pos ⟨hi, rfl⟩, Nat.cast_max, hnv]
      have h1 : t.toNat ≤ s.estimate item := by
        apply le_estimateLoop
        · have := ht 0 (by omega)
          have := hcells 0 (hashval s 0 item)
          unfold UINT32_MAX
          omega
        · intro k hk
          have := ht k hk
          omega
      exact le_max_of_le_right (by omega)
    · rw [if_neg hx]
      have := update_mono s item c i (hashval s i x)
      have := ht i hi
      omega

theorem runUpdates_inv (ups : List (Nat × Int)) :
    ∀ (s : CountMinSketch) (T : Int) (t : Nat → Int), s.WF → 1 ≤ s.d →
      (∀ u ∈ ups, 0 < u.2) → T + totalWeight ups < 4294967296 →
      (∀ i j, (cell s.C i j : Int) ≤ T) →
      (∀ x i, i < s.d → t x ≤ (cell s.C i (hashval s i x) : Int)) →
      (runUpdates s ups).d = s.d ∧
      (∀ i j, (cell (runUpdates s ups).C i j : Int) ≤ T + totalWeight ups) ∧
      (∀ x i, i < s.d → t x + trueCount x ups ≤
        (cell (runUpdates s ups).C i (hashval (runUpdates s ups) i x) : Int)) := by
  induction ups with
  | nil =>
    intro s T t _ _ _ _ hcells ht
    refine ⟨rfl, ?_, ?_⟩
    · intro i j; simpa [runUpdates, totalWeight] using hcells i j
    · intro x i hi; simpa [runUpdates, trueCount] using ht x i hi
  | cons u us ih =>
    intro s T t hwf hd hpos hT hcells ht
    have hc : 0 < u.2 := hpos u (List.mem_cons_self _ _)
    have hpos2 : ∀ v ∈ us, 0 < v.2 := fun v hv => hpos v (List.mem_cons_of_mem _ hv)
    have hnn := totalWeight_nonneg us hpos2
    simp only [totalWeight] at hT
    obtain ⟨hA, hB⟩ := update_step_inv s hwf hd u.1 u.2 T hc (by omega) hcells
    have := ih (update s u.1 u.2) (T + u.2) (fun x => t x + (if u.1 = x then u.2 else 0))
      (update_WF s hwf _ _) hd hpos2 (by omega) hA (fun x i hi => hB x (t x) (ht x) i hi)
    obtain ⟨h1, h2, h3⟩ := this
    refine ⟨h1, ?_, ?_⟩
    · intro i j
      have := h2 i j
      simp only [runUpdates, totalWeight]
      omega
    · intro x i hi
      have := h3 x i hi
      simp only [runUpdates, trueCount]
      simp only at this
      omega

theorem cell_eq_zero_of_le (C : List (List Nat)) (w i j : Nat)
    (hrows : ∀ row ∈ C, row.length = w) (hj : w ≤ j) : cell C i j = 0 := by
  unfold cell
  by_cases hi : i < C.length
  · have hl := getD_row_length C i w hrows hi
    exact List.getD_eq_default _ _ (by omega)
  · have : C.getD i [] = [] := by
      rw [List.getD_eq_getElem?_getD]
      have : C[i]? = none := by simp; omega
      rw [this]; rfl
    rw [this]; rfl

theorem cell_eq_zero_of_length_le (C : List (List Nat)) (i j : Nat) (hi : C.length ≤ i) :
    cell C i j = 0 := by
  unfold cell
  have : C.getD i [] = [] := by
    rw [List.getD_eq_getElem?_getD]
    have : C[i]? = none := by simp; omega
    rw [this]; rfl
  rw [this]; rfl

theorem resetRow_length (C : List (List Nat)) (i n : Nat) :
    (resetRow C i n).length = C.length := by
  induction n with
  | zero => rfl
  | succ n ih => simp only [resetRow]; rw [setCell_length, ih]

theorem resetRow_rows (C : List (List Nat)) (w i n : Nat) (h : ∀ row ∈ C, row.length = w) :
    ∀ row ∈ resetRow C i n, row.length = w := by
  induction n with
  | zero => exact h
  | succ n ih => simp only [resetRow]; exact setCell_row_length _ _ _ _ _ ih

theorem resetRow_cell (C : List (List Nat)) (w i n : Nat) (hrows : ∀ row ∈ C, row.length = w)
    (hi : i < C.length) (hn : n ≤ w) :
    ∀ i' j', cell (resetRow C i n) i' j' = if i' = i ∧ j' < n then 0 else cell C i' j' := by
  induction n with
  | zero => intro i' j'; simp [resetRow]
  | succ n ih =>
    have ih := ih (by omega)
    intro i' j'
    simp only [resetRow]
    rw [cell_setCell_of_lt _ w _ _ _ _ _ (resetRow_rows C w i n hrows)
      (by rw [resetRow_length]; exact hi) (by omega), ih]
    by_cases h1 : i' = i ∧ j' = n
    · rw [if_pos h1, if_pos ⟨h1.1, by omega⟩]
    · rw [if_neg h1]
      by_cases h2 : i' = i ∧ j' < n
      · rw [if_pos h2, if_pos ⟨h2.1, by omega⟩]
      · rw [if_neg h2, if_neg]
        rintro ⟨h3, h4⟩
        rcases Nat.lt_succ_iff_lt_or_eq.mp h4 with h5 | h5
        · exact h2 ⟨h3, h5⟩
        · exact h1 ⟨h3, h5⟩

theorem resetLoop_length (s : CountMinSketch) (n : Nat) :
    (resetLoop s n).length = s.C.length := by
  induction n with
  | zero => rfl
  | succ n ih => simp only [resetLoop]; rw [resetRow_length, ih]

theorem resetLoop_rows (s : CountMinSketch) (n : Nat) (h : ∀ row ∈ s.C, row.length = s.w) :
    ∀ row ∈ resetLoop s n, row.length = s.w := by
  induction n with
  | zero => exact h
  | succ n ih => simp only [resetLoop]; exact resetRow_rows _ _ _ _ ih

theorem resetLoop_cell (s : CountMinSketch) (h : s.WF) (n : Nat) (hn : n ≤ s.d) :
    ∀ i j, cell (resetLoop s n) i j = if i < n then 0 else cell s.C i j := by
  induction n with
  | zero => intro i j; simp [resetLoop]
  | succ n ih =>
    have ih := ih (by omega)
    intro i j
    simp only [resetLoop]
    have hrows := resetLoop_rows s n h.2.2.2.1
    rw [resetRow_cell _ s.w n s.w hrows (by rw [resetLoop_length, h.2.2.1]; omega) (le_refl _)]
    by_cases h1 : i = n ∧ j < s.w
    · rw [if_pos h1, if_pos (by omega)]
    · rw [if_neg h1, ih]
      by_cases h2 : i < n
      · rw [if_pos h2, if_pos (by omega)]
      · rw [if_neg h2]
        by_cases h3 : i = n
        · rw [if_pos (by omega)]
          exact cell_eq_zero_of_le _ s.w _ _ h.2.2.2.1 (by omega)
        · rw [if_neg (by omega)]

theorem reset_cell (s : CountMinSketch) (h : s.WF) (i j : Nat) : cell (reset s).C i j = 0 := by
  show cell (resetLoop s s.d) i j = 0
  rw [resetLoop_cell s h s.d (le_refl _)]
  split_ifs with h1
  · rfl
  · exact cell_eq_zero_of_length_le _ _ _ (by rw [h.2.2.1]; omega)

theorem reset_WF (s : CountMinSketch) (h : s.WF) : (reset s).WF := by
  obtain ⟨h1, h2, h3, h4, h5⟩ := h
  refine ⟨h1, h2, ?_, ?_, h5⟩
  · show (resetLoop s s.d).length = s.d
    rw [resetLoop_length, h3]
  · exact resetLoop_rows s s.d h4

theorem estimate_zero_of_cells_zero (s : CountMinSketch) (hd : 1 ≤ s.d)
    (h : ∀ i j, cell s.C i j = 0) (x : Nat) : s.estimate x = 0 := by
  have := estimateLoop_le_cell s x s.d 0 (by omega)
  rw [h] at this
  unfold estimate
  omega

theorem runCalls_total (calls : List Call) :
    ∀ s : CountMinSketch, s.total < 4294967296 →
      (runCalls s calls).total = (s.total + toU32 (sumCounts calls)) % 4294967296 := by
  induction calls with
  | nil =>
    intro s hs
    simp only [runCalls, sumCounts, toU32]
    omega
  | cons k ks ih =>
    intro s hs
    cases k with
    | update item c =>
      have h1 : (s.update item c).total = (s.total + toU32 c) % 4294967296 := rfl
      simp only [runCalls, step, sumCounts]
      rw [ih _ (by rw [h1]; omega), h1]
      unfold toU32
      omega
    | estimate item =>
      simp only [runCalls, step, sumCounts]
      exact ih s hs
    | reset =>
      have h1 : s.reset.total = s.total := rfl
      simp only [runCalls, step, sumCounts]
      rw [ih _ (by rw [h1]; exact hs), h1]

theorem estimateLoop_update_self (s : CountMinSketch) (hwf : s.WF) (x : Nat) (c : Int)
    (n : Nat) (hn : n ≤ s.d) :
    estimateLoop (s.update x c) x n =
      if n = 0 then UINT32_MAX
      else max (estimateLoop s x n) ((s.estimate x + toU32 c) % 4294967296) := by
  induction n with
  | zero => rfl
  | succ n ih =>
    have ih := ih (by omega)
    have hh : hashval (s.update x c) n x = hashval s n x := rfl
    have hcell : cell (s.update x c).C n (hashval s n x) =
        max (cell s.C n (hashval s n x)) ((s.estimate x + toU32 c) % 4294967296) := by
      rw [update_cell s hwf, if_pos ⟨by omega, rfl⟩]
    have hnv : (s.estimate x + toU32 c) % 4294967296 ≤ 4294967295 := by omega
    have hsucc : ¬ (n + 1 = 0) := by omega
    simp only [estimateLoop]
    rw [ih, hh, hcell, if_neg hsucc]
    by_cases h0 : n = 0
    · subst h0
      simp only [if_true, estimateLoop, UINT32_MAX]
      omega
    · rw [if_neg h0]
      omega

/-- The estimate of an item right after an update of that item. -/
theorem estimate_update_self (s : CountMinSketch) (hwf : s.WF) (hd : 1 ≤ s.d) (x : Nat)
    (c : Int) :
    (s.update x c).estimate x =
      max (s.estimate x) ((s.estimate x + toU32 c) % 4294967296) := by
  show estimateLoop (s.update x c) x s.d = _
  rw [estimateLoop_update_self s hwf x c s.d (le_refl _), if_neg (by omega)]
  rfl

theorem estimate_reset_update (s : CountMinSketch) (hwf : s.WF) (hd : 1 ≤ s.d) (x : Nat)
    (c : Int) (hc : 0 < c) (hc2 : c < 2147483648) :
    (((s.reset).update x c).estimate x : Int) = c := by
  have h0 : (s.reset).estimate x = 0 :=
    estimate_zero_of_cells_zero (s.reset) hd (reset_cell s hwf) x
  rw [estimate_update_self (s.reset) (reset_WF s hwf) hd, h0]
  unfold toU32
  omega

end CountMinSketch

namespace CircularCMS

theorem toI32_step (n e : Nat) : toI32 (toU32 (toI32 n) + e) = toI32 (n + e) := by
  unfold toI32 toU32
  split_ifs <;> omega

theorem foldl_estimate (x : Nat) (l : List CountMinSketch) :
    ∀ n : Nat, l.foldl (fun count k => toI32 (toU32 count + k.estimate x)) (toI32 n) =
      toI32 (n + (l.map (fun k => k.estimate x)).sum) := by
  induction l with
  | nil => intro n; simp
  | cons b bs ih =>
    intro n
    simp only [List.foldl_cons, List.map_cons, List.sum_cons]
    rw [toI32_step, ih]
    congr 1
    omega

theorem estimate_eq_sum (s : CircularCMS) (x : Nat) :
    s.estimate x = toI32 ((s.counters_.map (fun k => k.estimate x)).sum) := by
  have := foldl_estimate x s.counters_ 0
  simpa [estimate, toI32] using this

theorem sum_map_set (f : CountMinSketch → Nat) (l : List CountMinSketch) :
    ∀ (k : Nat) (v : CountMinSketch), k < l.length →
      ((l.set k v).map f).sum = f v + ((l.eraseIdx k).map f).sum := by
  induction l with
  | nil => intro k v hk; simp at hk
  | cons b bs ih =>
    intro k v hk
    cases k with
    | zero => simp
    | succ k =>
      simp only [List.set_cons_succ, List.map_cons, List.sum_cons, List.eraseIdx_cons_succ]
      rw [ih k v (by simpa using hk)]
      omega

theorem eraseIdx_set (l : List CountMinSketch) :
    ∀ (k : Nat) (v : CountMinSketch), (l.set k v).eraseIdx k = l.eraseIdx k := by
  induction l with
  | nil => intro k v; simp
  | cons b bs ih =>
    intro k v
    cases k with
    | zero => simp
    | succ k => simp [ih k v]

/-- The effect of `update` on a bucket index inside the vector. -/
theorem update_valid (s : CircularCMS) (item k : Nat) (c : Int) (hk : k < s.counters_.length) :
    s.update item (k : Int) c =
      some ({ counters_ := s.counters_.set k
                ((if (k : Int) = s.current_counter_index_ then s.counters_[k]
                  else (s.counters_[k]).reset).update item c),
              num_counter_ := s.num_counter_,
              current_counter_index_ := (k : Int) }, 0) := by
  have h1 : ¬ ((k : Int) > (s.counters_.length : Int)) := by omega
  have h2 : s.counterAt (k : Int) = some (s.counters_[k]) := by
    simp [counterAt, hk]
  by_cases hcur : (k : Int) = s.current_counter_index_
  · have h3 : s.counterAt s.current_counter_index_ = some (s.counters_[k]) := by
      rw [← hcur]; exact h2
    have h4 : s.current_counter_index_.toNat = k := by rw [← hcur]; simp
    simp only [update, if_neg h1, hcur, ne_eq, not_true_eq_false, if_false, Option.some_bind,
      h3, Option.map_some', h4, if_true]
    rw [← hcur, if_neg h1]
  · simp [update, h1, hcur, h2, counterAt, hk]

end CircularCMS

/-! ## The properties of the base sketch -/

/-- C1 (never-underestimate): start from a sketch of depth at least 1 whose
grid is zero (as the constructor or `reset` leaves it) and run any sequence
of `update` calls with positive counts whose total weight is below `2^32`.
After every prefix of the sequence and for every item `x`, `estimate(x)` is
at least the sum of the counts inserted for `x`. -/
theorem never_underestimate (s : CountMinSketch) (hwf : s.WF) (hd : 1 ≤ s.d)
    (hzero : ∀ i j, cell s.C i j = 0) (ups : List (Nat × Int))
    (hpos : ∀ u ∈ ups, 0 < u.2) (htot : totalWeight ups < 4294967296)
    (pre : List (Nat × Int)) (hpre : pre <+: ups) (x : Nat) :
    trueCount x pre ≤ ((runUpdates s pre).estimate x : Int) := by
  obtain ⟨rest, rfl⟩ := hpre
  have hpos1 : ∀ u ∈ pre, 0 < u.2 := fun u hu => hpos u (List.mem_append_left _ hu)
  have hpos2 : ∀ u ∈ rest, 0 < u.2 := fun u hu => hpos u (List.mem_append_right _ hu)
  have hnn := totalWeight_nonneg rest hpos2
  rw [totalWeight_append] at htot
  obtain ⟨h1, h2, h3⟩ := runUpdates_inv pre s 0 (fun _ => 0) hwf hd hpos1 (by omega)
    (fun i j => by rw [hzero]; exact le_refl _)
    (fun x i _ => Int.ofNat_nonneg _)
  have hle : (trueCount x pre).toNat ≤ (runUpdates s pre).estimate x := by
    apply le_estimateLoop
    · have := h3 x 0 (by omega)
      have := h2 0 (hashval (runUpdates s pre) 0 x)
      unfold UINT32_MAX
      omega
    · intro i hi
      have := h3 x i (by omega)
      omega
  omega

/-- A run of C1: two updates on a fresh `2 × 4` sketch. -/
theorem never_underestimate_witness :
    trueCount 0 [(2, 1), (0, 5)] ≤
      ((runUpdates (init 4 2 [(1, 1), (2, 1)]) [(2, 1), (0, 5)]).estimate 0 : Int) :=
  never_underestimate (init 4 2 [(1, 1), (2, 1)]) (by decide) (by decide)
    (fun i j => cell_replicate 2 4 i j) [(2, 1), (0, 5)] (by decide) (by decide)
    [(2, 1), (0, 5)] (List.prefix_refl _) 0

/-- C2, as stated, fails: on a fresh sketch of depth 1 and width 4 (as built
for `eps = 0.75`, `gamma = 0.5`) `update(0, -1)` leaves `4294967295` in the
projected cell of row 0, while the maximum of the previous value `0` and the
integer sum `0 + (-1)` is `0`. -/
theorem conservative_update_integer_sum_fails :
    ((cell ((init 4 1 [(1, 1)]).update 0 (-1)).C 0 (hashval (init 4 1 [(1, 1)]) 0 0) : Nat) : Int)
      ≠ max ((cell (init 4 1 [(1, 1)]).C 0 (hashval (init 4 1 [(1, 1)]) 0 0) : Nat) : Int)
          (((init 4 1 [(1, 1)]).estimate 0 : Nat) + (-1 : Int)) := by
  decide

/-- C2 (amended): after `update(item, c)` each projected cell `(j, h_j)` of
the item holds the maximum of its previous value and the previous
`estimate(item) + c` reduced modulo `2^32`; every other grid cell is
unchanged. -/
theorem conservative_update_mod (s : CountMinSketch) (hwf : s.WF) (item : Nat) (c : Int) :
    (∀ j, j < s.d →
      ((cell (s.update item c).C j (hashval s j item) : Nat) : Int) =
        max ((cell s.C j (hashval s j item) : Nat) : Int)
          (((s.estimate item : Nat) + c) % 4294967296)) ∧
    (∀ i j, ¬ (i < s.d ∧ j = hashval s i item) →
      cell (s.update item c).C i j = cell s.C i j) := by
  constructor
  · intro j hj
    rw [update_cell s hwf, if_pos ⟨hj, rfl⟩, Nat.cast_max, newval_cast]
  · intro i j hij
    rw [update_cell s hwf, if_neg hij]

/-- An instance of the amended C2 on a fresh `1 × 4` sketch. -/
theorem conservative_update_mod_witness :
    (∀ j, j < (init 4 1 [(1, 1)]).d →
      ((cell ((init 4 1 [(1, 1)]).update 0 (-1)).C j (hashval (init 4 1 [(1, 1)]) j 0) : Nat)
          : Int) =
        max ((cell (init 4 1 [(1, 1)]).C j (hashval (init 4 1 [(1, 1)]) j 0) : Nat) : Int)
          ((((init 4 1 [(1, 1)]).estimate 0 : Nat) + (-1 : Int)) % 4294967296)) ∧
    (∀ i j, ¬ (i < (init 4 1 [(1, 1)]).d ∧ j = hashval (init 4 1 [(1, 1)]) i 0) →
      cell ((init 4 1 [(1, 1)]).update 0 (-1)).C i j = cell (init 4 1 [(1, 1)]).C i j) :=
  conservative_update_mod (init 4 1 [(1, 1)]) (by decide) 0 (-1)

/-- C3, as stated, fails: take a fresh sketch of depth 2 and width 4 (as
built for `eps = 0.75`, `gamma = 0.2`) and call `update(2, 1)`.  Item `0` then
has projected cells `0` (row 0) and `1` (row 1), so its estimate is `0`;
`update(0, 5)` changes the row-1 cell from `1` to `5` although it was strictly
above the minimum. -/
theorem update_changes_cell_above_minimum :
    cell (((init 4 2 [(1, 1), (2, 1)]).update 2 1).update 0 5).C 1
        (hashval ((init 4 2 [(1, 1), (2, 1)]).update 2 1) 1 0)
      ≠ cell ((init 4 2 [(1, 1), (2, 1)]).update 2 1).C 1
        (hashval ((init 4 2 [(1, 1), (2, 1)]).update 2 1) 1 0) ∧
    ((init 4 2 [(1, 1), (2, 1)]).update 2 1).estimate 0
      < cell ((init 4 2 [(1, 1), (2, 1)]).update 2 1).C 1
        (hashval ((init 4 2 [(1, 1), (2, 1)]).update 2 1) 1 0) := by
  decide

/-- C3 (amended): every grid cell whose value is changed by `update(item, c)`
is a projected cell of the item that held, before the update, a value at
least the previous `estimate(item)` and strictly below the previous
`estimate(item) + c` reduced modulo `2^32`; projected cells at or above that
value are left unchanged. -/
theorem update_changes_only_cells_below (s : CountMinSketch) (hwf : s.WF) (item : Nat)
    (c : Int) :
    (∀ i j, cell (s.update item c).C i j ≠ cell s.C i j →
      i < s.d ∧ j = hashval s i item ∧ s.estimate item ≤ cell s.C i j ∧
        cell s.C i j < (s.estimate item + toU32 c) % 4294967296) ∧
    (∀ j, j < s.d → (s.estimate item + toU32 c) % 4294967296 ≤ cell s.C j (hashval s j item) →
      cell (s.update item c).C j (hashval s j item) = cell s.C j (hashval s j item)) := by
  constructor
  · intro i j hne
    rw [update_cell s hwf] at hne
    by_cases hij : i < s.d ∧ j = hashval s i item
    · rw [if_pos hij] at hne
      obtain ⟨hi, rfl⟩ := hij
      refine ⟨hi, rfl, estimateLoop_le_cell s item s.d i hi, ?_⟩
      by_contra hlt
      exact hne (max_eq_left (by omega))
    · rw [if_neg hij] at hne
      exact absurd rfl hne
  · intro j hj hle
    rw [update_cell s hwf, if_pos ⟨hj, rfl⟩]
    exact max_eq_left hle

/-- An instance of the amended C3 on the state of the counterexample. -/
theorem update_changes_only_cells_below_witness :
    (∀ i j, cell (((init 4 2 [(1, 1), (2, 1)]).update 2 1).update 0 5).C i j ≠
        cell ((init 4 2 [(1, 1), (2, 1)]).update 2 1).C i j →
      i < ((init 4 2 [(1, 1), (2, 1)]).update 2 1).d ∧
        j = hashval ((init 4 2 [(1, 1), (2, 1)]).update 2 1) i 0 ∧
        ((init 4 2 [(1, 1), (2, 1)]).update 2 1).estimate 0 ≤
          cell ((init 4 2 [(1, 1), (2, 1)]).update 2 1).C i j ∧
        cell ((init 4 2 [(1, 1), (2, 1)]).update 2 1).C i j <
          (((init 4 2 [(1, 1), (2, 1)]).update 2 1).estimate 0 + toU32 5) % 4294967296) ∧
    (∀ j, j < ((init 4 2 [(1, 1), (2, 1)]).update 2 1).d →
      (((init 4 2 [(1, 1), (2, 1)]).update 2 1).estimate 0 + toU32 5) % 4294967296 ≤
        cell ((init 4 2 [(1, 1), (2, 1)]).update 2 1).C j
          (hashval ((init 4 2 [(1, 1), (2, 1)]).update 2 1) j 0) →
      cell (((init 4 2 [(1, 1), (2, 1)]).update 2 1).update 0 5).C j
          (hashval ((init 4 2 [(1, 1), (2, 1)]).update 2 1) j 0) =
        cell ((init 4 2 [(1, 1), (2, 1)]).update 2 1).C j
          (hashval ((init 4 2 [(1, 1), (2, 1)]).update 2 1) j 0)) :=
  update_changes_only_cells_below ((init 4 2 [(1, 1), (2, 1)]).update 2 1) (by decide) 0 5

/-- C4 (conservative monotonicity): for every sketch state, item and signed
count, no grid cell is smaller after `update(item, c)` than before; hence no
counter decreases over any sequence of updates without reset. -/
theorem counters_never_decrease (s : CountMinSketch) (i j : Nat) :
    (∀ (item : Nat) (c : Int), cell s.C i j ≤ cell (s.update item c).C i j) ∧
    (∀ ups : List (Nat × Int), cell s.C i j ≤ cell (runUpdates s ups).C i j) :=
  ⟨fun item c => update_mono s item c i j, fun ups => runUpdates_mono ups s i j⟩

/-- C5 (reset clears estimates): on a sketch of depth at least 1, after
`reset()` every grid cell is zero and `estimate(x) = 0` for every item, while
the hash pairs, the width and the depth, and so every projection, are
unchanged. -/
theorem reset_clears_estimates (s : CountMinSketch) (hwf : s.WF) (hd : 1 ≤ s.d) :
    (∀ x, (s.reset).estimate x = 0) ∧ (∀ i j, cell (s.reset).C i j = 0) ∧
    (s.reset).hashes = s.hashes ∧ (s.reset).w = s.w ∧ (s.reset).d = s.d ∧
    (∀ j x, hashval (s.reset) j x = hashval s j x) :=
  ⟨fun x => estimate_zero_of_cells_zero (s.reset) hd (reset_cell s hwf) x,
    reset_cell s hwf, rfl, rfl, rfl, fun _ _ => rfl⟩

/-- An instance of C5: reset after two updates on a `2 × 4` sketch. -/
theorem reset_clears_estimates_witness :
    (∀ x, ((((init 4 2 [(1, 1), (2, 1)]).update 2 1).update 0 5).reset).estimate x = 0) ∧
    (∀ i j, cell ((((init 4 2 [(1, 1), (2, 1)]).update 2 1).update 0 5).reset).C i j = 0) :=
  ⟨(reset_clears_estimates (((init 4 2 [(1, 1), (2, 1)]).update 2 1).update 0 5)
      (by decide) (by decide)).1,
    (reset_clears_estimates (((init 4 2 [(1, 1), (2, 1)]).update 2 1).update 0 5)
      (by decide) (by decide)).2.1⟩

/-- C6 (running total): after any sequence of `update`, `estimate` and
`reset` calls on a constructed sketch, `totalcount()` is the sum of the counts
passed to `update`, reduced modulo `2^32`; `reset` and `estimate` leave the
running total as it is. -/
theorem totalcount_eq_sum_mod (w d : Nat) (hashes : List (Nat × Nat)) (calls : List Call) :
    (runCalls (init w d hashes) calls).totalcount = toU32 (sumCounts calls) ∧
    (∀ s : CountMinSketch, (s.reset).totalcount = s.totalcount) ∧
    (∀ (s : CountMinSketch) (x : Nat), (s.step (Call.estimate x)).totalcount = s.totalcount) := by
  refine ⟨?_, fun _ => rfl, fun _ _ => rfl⟩
  show (runCalls (init w d hashes) calls).total = _
  rw [runCalls_total calls (init w d hashes) (by simp [init])]
  simp only [init, toU32]
  omega

/-- C7, the constructor's check on the code: it accepts exactly
`DOUBLE_0_009 ≤ eps < 1` and `0 < gamma < 1`.  So the `float` nearest to
`0.0095`, which is below `0.01`, is accepted (with the default `gamma`),
although the message printed on rejection gives the range `[0.01, 1)`.  The
default `eps = 0.01f` is accepted, `eps = 0.009f` is rejected, and `gamma = 0`
and `gamma = 1` are rejected. -/
theorem ctor_accepts_eps_below_one_hundredth :
    ctorAccepts FLOAT_0_0095 FLOAT_0_01 = true ∧ FLOAT_0_0095 < 1 / 100 ∧
    (∀ ep gamm : ℚ, ctorAccepts ep gamm = true ↔
      (DOUBLE_0_009 ≤ ep ∧ ep < 1) ∧ (0 < gamm ∧ gamm < 1)) ∧
    ctorAccepts FLOAT_0_01 FLOAT_0_01 = true ∧ ctorAccepts FLOAT_0_009 FLOAT_0_01 = false ∧
    ctorAccepts FLOAT_0_01 0 = false ∧ ctorAccepts FLOAT_0_01 1 = false := by
  refine ⟨?_, ?_, ?_, ?_, ?_, ?_, ?_⟩
  · norm_num [ctorAccepts, FLOAT_0_0095, FLOAT_0_01, DOUBLE_0_009]
  · norm_num [FLOAT_0_0095]
  · intro ep gamm
    unfold ctorAccepts
    by_cases h1 : DOUBLE_0_009 ≤ ep ∧ ep < 1
    · by_cases h2 : 0 < gamm ∧ gamm < 1
      · simp [h1, h2]
      · simp [h1, h2]
    · simp [h1]
  · norm_num [ctorAccepts, FLOAT_0_01, DOUBLE_0_009]
  · norm_num [ctorAccepts, FLOAT_0_009, FLOAT_0_01, DOUBLE_0_009]
  · norm_num [ctorAccepts, FLOAT_0_01, DOUBLE_0_009]
  · norm_num [ctorAccepts, FLOAT_0_01, DOUBLE_0_009]

namespace CountMinSketch

theorem estimate_update_other_zero (s : CountMinSketch) (hwf : s.WF)
    (hzero : ∀ i j, cell s.C i j = 0) (x y : Nat) (c : Int) (j : Nat) (hj : j < s.d)
    (hne : hashval s j y ≠ hashval s j x) : (s.update x c).estimate y = 0 := by
  have h1 := estimateLoop_le_cell (s.update x c) y s.d j hj
  have hh : hashval (s.update x c) j y = hashval s j y := rfl
  rw [hh, update_cell s hwf, if_neg (fun h => hne h.2), hzero] at h1
  unfold estimate
  show estimateLoop (s.update x c) y s.d = 0
  omega

end CountMinSketch

namespace CircularCMS

/-- The index `counters_.size()` passes the guard of `update` and is then
used to index the vector. -/
theorem update_at_length (s : CircularCMS) (item : Nat) (c : Int) :
    s.update item (s.counters_.length : Int) c = none := by
  by_cases h : (s.counters_.length : Int) = s.current_counter_index_
  · have h2 : s.current_counter_index_.toNat = s.counters_.length := by rw [← h]; simp
    simp [update, counterAt, h, h2]
  · simp [update, counterAt, h]

/-- A negative index passes the guard of `update` and is then used to index
the vector. -/
theorem update_negSucc (s : CircularCMS) (item : Nat) (c : Int) (n : Nat) :
    s.update item (Int.negSucc n) c = none := by
  have hneg : ¬ (0 ≤ Int.negSucc n) := by
    have := Int.negSucc_lt_zero n; omega
  have hgt : ¬ (Int.negSucc n > (s.counters_.length : Int)) := by
    have := Int.negSucc_lt_zero n; omega
  by_cases h : Int.negSucc n = s.current_counter_index_
  · have hneg2 : ¬ (0 ≤ s.current_counter_index_) := by rw [← h]; exact hneg
    simp [update, counterAt, h, hneg2, hgt]
    omega
  · simp [update, counterAt, h, hneg, hgt]

theorem sketch0_WF : sketch0.WF := init_WF 272 5 hashes5 (by decide) (by decide) rfl

theorem sketch0_estimate (x : Nat) : sketch0.estimate x = 0 :=
  estimate_zero_of_cells_zero sketch0 (by decide) (fun i j => cell_replicate 5 272 i j) x

theorem window3_counters : window3.counters_ = [sketch0, sketch0, sketch0] := rfl

theorem window2_counters : window2.counters_ = [sketch0, sketch0] := rfl

theorem window3_step1 : window3.update 97 0 5 = some (window3a, 0) := by
  have h := update_valid window3 97 0 5 (by rw [window3_counters]; decide)
  simpa [window3_counters, window3, init, window3a] using h

theorem window3_step2 : window3a.update 98 1 1 = some (window3b, 0) := by
  have h := update_valid window3a 98 1 1 (by decide)
  simpa [window3a, window3b] using h

theorem window3_step3 : window3b.update 97 0 2 = some (window3c, 0) := by
  have h := update_valid window3b 97 0 2 (by decide)
  simpa [window3b, window3c] using h

theorem sketch0_d : 1 ≤ sketch0.d := by decide

theorem est_reset_update_self (s : CountMinSketch) (hwf : s.WF) (hd : 1 ≤ s.d) (x c : Nat)
    (hc : 0 < c) (hc2 : c < 2147483648) : ((s.reset).update x (c : Int)).estimate x = c := by
  have := estimate_reset_update s hwf hd x (c : Int) (by omega) (by omega)
  omega

theorem est_reset_update_other (s : CountMinSketch) (hwf : s.WF) (x y : Nat) (c : Int) (j : Nat)
    (hj : j < s.d) (hne : hashval s j y ≠ hashval s j x) :
    ((s.reset).update x c).estimate y = 0 :=
  estimate_update_other_zero (s.reset) (reset_WF s hwf) (reset_cell s hwf) x y c j hj hne

theorem window3a_estimate : window3a.estimate 97 = 5 := by
  rw [estimate_eq_sum]
  have h1 := est_reset_update_self sketch0 sketch0_WF sketch0_d 97 5 (by decide) (by decide)
  simp only [Nat.cast_ofNat] at h1
  simp only [window3a, List.map_cons, List.map_nil, List.sum_cons, List.sum_nil,
    sketch0_estimate, h1]
  decide

theorem window3b_estimate : window3b.estimate 97 = 5 := by
  rw [estimate_eq_sum]
  have h1 := est_reset_update_self sketch0 sketch0_WF sketch0_d 97 5 (by decide) (by decide)
  have h2 := est_reset_update_other sketch0 sketch0_WF 98 97 1 0 (by decide) (by decide)
  simp only [Nat.cast_ofNat] at h1
  simp only [window3b, List.map_cons, List.map_nil, List.sum_cons, List.sum_nil,
    sketch0_estimate, h1, h2]
  decide

theorem window3c_estimate : window3c.estimate 97 = 2 := by
  rw [estimate_eq_sum]
  have hB : ((sketch0.reset).update 97 5).WF := update_WF _ (reset_WF _ sketch0_WF) _ _
  have h1 := est_reset_update_self ((sketch0.reset).update 97 5) hB sketch0_d 97 2
    (by decide) (by decide)
  have h2 := est_reset_update_other sketch0 sketch0_WF 98 97 1 0 (by decide) (by decide)
  simp only [Nat.cast_ofNat] at h1
  simp only [window3c, List.map_cons, List.map_nil, List.sum_cons, List.sum_nil,
    sketch0_estimate, h1, h2]
  decide

theorem window2_step1 : window2.update 0 0 2147483647 = some (window2a, 0) := by
  have h := update_valid window2 0 0 2147483647 (by rw [window2_counters]; decide)
  simpa [window2_counters, window2, init, window2a] using h

theorem window2_step2 : window2a.update 0 1 1 = some (window2b, 0) := by
  have h := update_valid window2a 0 1 1 (by decide)
  simpa [window2a, window2b] using h

theorem window2b_estimate : window2b.estimate 0 = -2147483648 := by
  rw [estimate_eq_sum]
  have h1 := est_reset_update_self sketch0 sketch0_WF sketch0_d 0 2147483647
    (by decide) (by decide)
  have h2 := est_reset_update_self sketch0 sketch0_WF sketch0_d 0 1 (by decide) (by decide)
  simp only [Nat.cast_ofNat, Nat.cast_one] at h1 h2
  simp only [window2b, List.map_cons, List.map_nil, List.sum_cons, List.sum_nil, h1, h2]
  decide

theorem window2a_others : ((window2a.counters_.eraseIdx 1).map (fun b => b.estimate 0)).sum
    = 2147483647 := by
  have h1 := est_reset_update_self sketch0 sketch0_WF sketch0_d 0 2147483647
    (by decide) (by decide)
  simp only [Nat.cast_ofNat] at h1
  simp [window2a, h1]

end CircularCMS

/-! ## The properties of the rolling window -/

/-- C8, the index check on the code: the guard is `counter_index > size`, so
the index `N = counters_.size()` and every negative index pass it; the call
then indexes `counters_` out of range instead of returning `-1`.  In
`window3` (three buckets) this happens for index `3`. -/
theorem window_update_passes_index_N (s : CircularCMS) (item : Nat) (c : Int) :
    s.update item (s.counters_.length : Int) c = none ∧
    (∀ n : Nat, s.update item (Int.negSucc n) c = none) ∧
    CircularCMS.window3.update 97 3 1 = none := by
  refine ⟨CircularCMS.update_at_length s item c, CircularCMS.update_negSucc s item c, ?_⟩
  have h := CircularCMS.update_at_length CircularCMS.window3 97 1
  rw [CircularCMS.window3_counters] at h
  simpa using h

/-- C9, as stated, fails when the sum leaves the range of `int`.  In
`window2` (two default sketches, depth 5), `update(0, 0, 2147483647)` gives
`window2a`, where bucket 0 is active and estimates item 0 at 2147483647.
Then `update(0, 1, 1)`, with valid bucket 1 different from the active one,
gives `window2b`, where `estimate(0)` returns `-2147483648`, whereas `c` plus
the other bucket's estimate is `1 + 2147483647 = 2147483648`. -/
theorem window_estimate_wraps_after_rotation :
    CircularCMS.window2.update 0 0 2147483647 = some (CircularCMS.window2a, 0) ∧
    CircularCMS.window2a.current_counter_index_ = 0 ∧
    CircularCMS.window2a.update 0 1 1 = some (CircularCMS.window2b, 0) ∧
    CircularCMS.window2b.estimate 0 = -2147483648 ∧
    (1 : Int) +
        (((CircularCMS.window2a.counters_.eraseIdx 1).map (fun b => b.estimate 0)).sum : Nat)
      = 2147483648 :=
  ⟨CircularCMS.window2_step1, rfl, CircularCMS.window2_step2, CircularCMS.window2b_estimate,
    by rw [CircularCMS.window2a_others]; rfl⟩

/-- C9 (amended): in a window whose sketches have depth at least 1, for an
item `x`, a count `0 < c < 2^31` and a bucket `k` inside the vector that is
not the active one, `update(x, k, c)` succeeds, leaves every other bucket as
it was, and makes bucket `k` estimate `x` at exactly `c` whatever it held
before; `estimate(x)` of the window is then `c` plus the other buckets'
estimates of `x`, reduced to a signed 32-bit integer, which is the exact sum
whenever that sum is below `2^31`. -/
theorem rotation_discards_stale_bucket (s : CircularCMS) (x k : Nat) (c : Int)
    (hk : k < s.counters_.length) (hne : (k : Int) ≠ s.current_counter_index_)
    (hwf : ∀ b ∈ s.counters_, b.WF ∧ 1 ≤ b.d) (hc : 0 < c) (hc2 : c < 2147483648) :
    ∃ s', s.update x (k : Int) c = some (s', 0) ∧
      (s'.counters_[k]?).map (fun b => (b.estimate x : Int)) = some c ∧
      s'.counters_.eraseIdx k = s.counters_.eraseIdx k ∧
      s'.estimate x =
        toI32 (c.toNat + ((s.counters_.eraseIdx k).map (fun b => b.estimate x)).sum) ∧
      (c + (((s.counters_.eraseIdx k).map (fun b => b.estimate x)).sum : Nat) < 2147483648 →
        s'.estimate x =
          c + (((s.counters_.eraseIdx k).map (fun b => b.estimate x)).sum : Nat)) := by
  have hb := hwf (s.counters_[k]) (List.getElem_mem hk)
  have hest := estimate_reset_update (s.counters_[k]) hb.1 hb.2 x c hc hc2
  have hsum : (({ counters_ := s.counters_.set k (((s.counters_[k]).reset).update x c),
                  num_counter_ := s.num_counter_,
                  current_counter_index_ := (k : Int) } : CircularCMS).estimate x) =
      toI32 (c.toNat + ((s.counters_.eraseIdx k).map (fun b => b.estimate x)).sum) := by
    rw [CircularCMS.estimate_eq_sum]
    simp only []
    rw [CircularCMS.sum_map_set (fun b => b.estimate x) s.counters_ k _ hk]
    congr 2
    omega
  refine ⟨_, ?_, ?_, ?_, hsum, ?_⟩
  · rw [CircularCMS.update_valid s x k c hk, if_neg hne]
  · simp [hk, hest]
  · exact CircularCMS.eraseIdx_set _ _ _
  · intro hlt
    rw [hsum]
    unfold toI32
    split_ifs <;> omega

/-- The rotation scenario of C9 on `window3` (three default sketches):
`update(97, 0, 5)` gives `window3a`, where the estimate of 97 is 5;
`update(98, 1, 1)` gives `window3b`, where it is still 5; `update(97, 0, 2)`
gives `window3c`, where it is 2, as the amended C9 states for `window3b`,
bucket 0 and count 2. -/
theorem rotation_discards_stale_bucket_witness :
    CircularCMS.window3.update 97 0 5 = some (CircularCMS.window3a, 0) ∧
    CircularCMS.window3a.estimate 97 = 5 ∧
    CircularCMS.window3a.update 98 1 1 = some (CircularCMS.window3b, 0) ∧
    CircularCMS.window3b.estimate 97 = 5 ∧
    CircularCMS.window3b.update 97 0 2 = some (CircularCMS.window3c, 0) ∧
    CircularCMS.window3c.estimate 97 = 2 ∧
    ∃ s', CircularCMS.window3b.update 97 ((0 : Nat) : Int) 2 = some (s', 0) ∧
      (s'.counters_[0]?).map (fun b => (b.estimate 97 : Int)) = some 2 ∧
      s'.counters_.eraseIdx 0 = CircularCMS.window3b.counters_.eraseIdx 0 ∧
      s'.estimate 97 =
        toI32 ((2 : Int).toNat +
          ((CircularCMS.window3b.counters_.eraseIdx 0).map (fun b => b.estimate 97)).sum) ∧
      ((2 : Int) +
          (((CircularCMS.window3b.counters_.eraseIdx 0).map (fun b => b.estimate 97)).sum : Nat)
            < 2147483648 →
        s'.estimate 97 =
          (2 : Int) +
            (((CircularCMS.window3b.counters_.eraseIdx 0).map
              (fun b => b.estimate 97)).sum : Nat)) := by
  have hwf : ∀ b ∈ CircularCMS.window3b.counters_, b.WF ∧ 1 ≤ b.d := by
    intro b hb
    simp only [CircularCMS.window3b, List.mem_cons, List.mem_singleton, List.not_mem_nil,
      or_false] at hb
    rcases hb with rfl | rfl | rfl
    · exact ⟨update_WF _ (reset_WF _ CircularCMS.sketch0_WF) _ _, CircularCMS.sketch0_d⟩
    · exact ⟨update_WF _ (reset_WF _ CircularCMS.sketch0_WF) _ _, CircularCMS.sketch0_d⟩
    · exact ⟨CircularCMS.sketch0_WF, CircularCMS.sketch0_d⟩
  exact ⟨CircularCMS.window3_step1, CircularCMS.window3a_estimate, CircularCMS.window3_step2,
    CircularCMS.window3b_estimate, CircularCMS.window3_step3, CircularCMS.window3c_estimate,
    rotation_discards_stale_bucket CircularCMS.window3b 97 0 2 (by decide) (by decide) hwf
      (by decide) (by decide)⟩

/-- C10 (window state machine): for a bucket index `k` inside the vector,
`update(item, k, c)` returns 0, makes `k` the active index, and replaces
bucket `k` by the result of `Sketch.update(item, c)` applied to bucket `k`
itself when `k` was already active and to the reset bucket `k` otherwise;
every other bucket and the number of buckets are unchanged.  A constructed
window starts with active index `-1`, which is no bucket. -/
theorem window_update_state_machine (s : CircularCMS) (item k : Nat) (c : Int)
    (hk : k < s.counters_.length) :
    (∃ s', s.update item (k : Int) c = some (s', 0) ∧
      s'.current_counter_index_ = (k : Int) ∧
      s'.counters_[k]? =
        some ((if (k : Int) = s.current_counter_index_ then s.counters_[k]
              else (s.counters_[k]).reset).update item c) ∧
      (∀ i, i ≠ k → s'.counters_[i]? = s.counters_[i]?) ∧
      s'.counters_.length = s.counters_.length ∧
      s'.num_counter_ = s.num_counter_) ∧
    (∀ (n : Int) (w d : Nat) (hs : Nat → List (Nat × Nat)),
      (CircularCMS.init n w d hs).current_counter_index_ = -1 ∧
        (CircularCMS.init n w d hs).current_counter_index_ ≠ (k : Int)) := by
  refine ⟨⟨_, CircularCMS.update_valid s item k c hk, rfl, ?_, ?_, ?_, rfl⟩, ?_⟩
  · simp [hk]
  · intro i hi
    simp only []
    rw [List.getElem?_set_ne (fun h => hi h.symm)]
  · simp
  · intro n w d hs
    refine ⟨rfl, ?_⟩
    show (-1 : Int) ≠ (k : Int)
    omega

/-- Two instances of C10 on `window3b`, whose active bucket is 1: an update
of bucket 1, which is not reset, and an update of bucket 0, which is. -/
theorem window_update_state_machine_witness :
    (∃ s', CircularCMS.window3b.update 98 ((1 : Nat) : Int) 4 = some (s', 0) ∧
      s'.current_counter_index_ = ((1 : Nat) : Int) ∧
      s'.counters_[1]? =
        some ((if ((1 : Nat) : Int) = CircularCMS.window3b.current_counter_index_ then
                CircularCMS.window3b.counters_[1]
              else (CircularCMS.window3b.counters_[1]).reset).update 98 4) ∧
      (∀ i, i ≠ 1 → s'.counters_[i]? = CircularCMS.window3b.counters_[i]?) ∧
      s'.counters_.length = CircularCMS.window3b.counters_.length ∧
      s'.num_counter_ = CircularCMS.window3b.num_counter_) ∧
    (∃ s', CircularCMS.window3b.update 98 ((0 : Nat) : Int) 4 = some (s', 0) ∧
      s'.current_counter_index_ = ((0 : Nat) : Int) ∧
      s'.counters_[0]? =
        some ((if ((0 : Nat) : Int) = CircularCMS.window3b.current_counter_index_ then
                CircularCMS.window3b.counters_[0]
              else (CircularCMS.window3b.counters_[0]).reset).update 98 4) ∧
      (∀ i, i ≠ 0 → s'.counters_[i]? = CircularCMS.window3b.counters_[i]?) ∧
      s'.counters_.length = CircularCMS.window3b.counters_.length ∧
      s'.num_counter_ = CircularCMS.window3b.num_counter_) ∧
    ((if ((1 : Nat) : Int) = CircularCMS.window3b.current_counter_index_ then
          CircularCMS.window3b.counters_[1]
        else (CircularCMS.window3b.counters_[1]).reset) =
      (CircularCMS.sketch0.reset).update 98 1) ∧
    ((if ((0 : Nat) : Int) = CircularCMS.window3b.current_counter_index_ then
          CircularCMS.window3b.counters_[0]
        else (CircularCMS.window3b.counters_[0]).reset) =
      (((CircularCMS.sketch0.reset).update 97 5).reset)) :=
  ⟨(window_update_state_machine CircularCMS.window3b 98 1 4 (by decide)).1,
    (window_update_state_machine CircularCMS.window3b 98 0 4 (by decide)).1,
    rfl, rfl⟩

/-! ## Further properties of the base sketch -/

namespace CountMinSketch

theorem sumCounts_append (xs ys : List Call) :
    sumCounts (xs ++ ys) = sumCounts xs + sumCounts ys := by
  induction xs with
  | nil => simp [sumCounts]
  | cons k ks ih =>
    cases k with
    | update item c =>
      show c + sumCounts (ks ++ ys) = c + sumCounts ks + sumCounts ys
      rw [ih]; omega
    | estimate item => exact ih
    | reset => exact ih

theorem sumCounts_nonneg (calls : List Call)
    (hnn : ∀ x c, Call.update x c ∈ calls → 0 ≤ c) : 0 ≤ sumCounts calls := by
  induction calls with
  | nil => exact le_refl _
  | cons k ks ih =>
    have ih := ih (fun x c h => hnn x c (List.mem_cons_of_mem _ h))
    cases k with
    | update item c =>
      have := hnn item c (List.mem_cons_self _ _)
      show 0 ≤ c + sumCounts ks
      omega
    | estimate item => exact ih
    | reset => exact ih

/-- One `update` with a non-negative count that keeps the running total
below `2^32` keeps every counter at most the running total. -/
theorem update_cells_le (s : CountMinSketch) (h : s.WF) (hd : 1 ≤ s.d) (item : Nat) (c T : Int)
    (hc : 0 ≤ c) (hT : T + c < 4294967296) (hcells : ∀ i j, (cell s.C i j : Int) ≤ T) :
    ∀ i j, (cell (update s item c).C i j : Int) ≤ T + c := by
  have hest : (s.estimate item : Int) ≤ T := by
    have := estimateLoop_le_cell s item s.d 0 (by omega)
    have := hcells 0 (hashval s 0 item)
    unfold estimate
    omega
  have hnv : (((s.estimate item + toU32 c) % 4294967296 : Nat) : Int) = s.estimate item + c := by
    rw [newval_cast]
    have : (0 : Int) ≤ s.estimate item := Int.ofNat_nonneg _
    omega
  intro i j
  rw [update_cell s h]
  have := hcells i j
  split_ifs
  · rw [Nat.cast_max, hnv]
    exact max_le (by omega) (by omega)
  · omega

theorem runCalls_cells_le (calls : List Call) :
    ∀ (s : CountMinSketch) (T : Int), s.WF → 1 ≤ s.d → (s.total : Int) = T →
      (∀ x c, Call.update x c ∈ calls → 0 ≤ c) → T + sumCounts calls < 4294967296 →
      (∀ i j, (cell s.C i j : Int) ≤ T) →
      ((runCalls s calls).total : Int) = T + sumCounts calls ∧
      (runCalls s calls).d = s.d ∧
      (∀ i j, (cell (runCalls s calls).C i j : Int) ≤ T + sumCounts calls) := by
  induction calls with
  | nil =>
    intro s T _ _ ht _ _ hcells
    refine ⟨by simpa [runCalls, sumCounts] using ht, rfl, ?_⟩
    intro i j; simpa [runCalls, sumCounts] using hcells i j
  | cons k ks ih =>
    intro s T hwf hd ht hnn hT hcells
    have hnn2 : ∀ x c, Call.update x c ∈ ks → 0 ≤ c :=
      fun x c h => hnn x c (List.mem_cons_of_mem _ h)
    have hks := sumCounts_nonneg ks hnn2
    cases k with
    | update item c =>
      have hc := hnn item c (List.mem_cons_self _ _)
      have hT2 : T + (c + sumCounts ks) < 4294967296 := hT
      have htot : ((s.update item c).total : Int) = T + c := by
        show (((s.total + toU32 c) % 4294967296 : Nat) : Int) = T + c
        rw [newval_cast]
        omega
      obtain ⟨h1, h2, h3⟩ := ih (s.update item c) (T + c) (update_WF s hwf _ _) hd htot hnn2
        (by omega) (update_cells_le s hwf hd item c T hc (by omega) hcells)
      refine ⟨?_, h2, ?_⟩
      · show ((runCalls (s.update item c) ks).total : Int) = T + (c + sumCounts ks)
        omega
      · intro i j
        have := h3 i j
        show (cell (runCalls (s.update item c) ks).C i j : Int) ≤ T + (c + sumCounts ks)
        omega
    | estimate item =>
      exact ih s T hwf hd ht hnn2 hT hcells
    | reset =>
      have hT2 : T + sumCounts ks < 4294967296 := hT
      have hT0 : 0 ≤ T := by rw [← ht]; exact Int.ofNat_nonneg _
      exact ih (s.reset) T (reset_WF s hwf) hd ht hnn2 hT2
        (fun i j => by rw [reset_cell s hwf]; exact hT0)

end CountMinSketch

/-- C19 (exact post-update estimate): on a sketch of depth at least 1, for
every item `x` and count `c ≥ 0` with `estimate(x) + c < 2^32`, the estimate
of `x` right after `update(x, c)` is its previous value plus `c`. -/
theorem estimate_after_update_exact (s : CountMinSketch) (hwf : s.WF) (hd : 1 ≤ s.d)
    (x : Nat) (c : Int) (hc : 0 ≤ c) (hlt : (s.estimate x : Int) + c < 4294967296) :
    ((s.update x c).estimate x : Int) = (s.estimate x : Int) + c := by
  have hnv := newval_cast (s.estimate x) c
  rw [estimate_update_self s hwf hd, Nat.cast_max, hnv]
  have : (0 : Int) ≤ s.estimate x := Int.ofNat_nonneg _
  rw [Int.emod_eq_of_lt (by omega) hlt]
  exact max_eq_right (by omega)

/-- An instance of C19: the sketch reached by `update(2, 1)` on a fresh sketch
of depth 2 and width 4, then `update(0, 5)`. -/
theorem estimate_after_update_exact_witness :
    ((((init 4 2 [(1, 1), (2, 1)]).update 2 1).update 0 5).estimate 0 : Int) =
      ((((init 4 2 [(1, 1), (2, 1)]).update 2 1).estimate 0 : Nat) : Int) + 5 :=
  estimate_after_update_exact ((init 4 2 [(1, 1), (2, 1)]).update 2 1) (by decide) (by decide)
    0 5 (by decide) (by decide)

/-- C20 (upper bound by total): construct a sketch of depth at least 1 and
make any sequence of `update`, `estimate` and `reset` calls in which every
count is non-negative and the counts sum to less than `2^32`.  Then every
grid cell, and so `estimate(x)` for every item, is at most `totalcount()`, and
at every `update(x, c)` of the sequence the sum `estimate(x) + c` formed by
the call is below `2^32`. -/
theorem cells_le_totalcount (w d : Nat) (hashes : List (Nat × Nat)) (hw : 0 < w)
    (hw2 : w < 4294967296) (hd : 1 ≤ d) (hl : hashes.length = d) (calls : List Call)
    (hnn : ∀ x c, Call.update x c ∈ calls → 0 ≤ c) (htot : sumCounts calls < 4294967296) :
    (∀ i j, cell (runCalls (init w d hashes) calls).C i j ≤
      (runCalls (init w d hashes) calls).totalcount) ∧
    (∀ x, (runCalls (init w d hashes) calls).estimate x ≤
      (runCalls (init w d hashes) calls).totalcount) ∧
    (∀ pre x c rest, calls = pre ++ Call.update x c :: rest →
      ((runCalls (init w d hashes) pre).estimate x : Int) + c < 4294967296) := by
  have hwf := init_WF w d hashes hw hw2 hl
  have hd0 : 1 ≤ (init w d hashes).d := hd
  have hz : ∀ i j, ((cell (init w d hashes).C i j : Nat) : Int) ≤ 0 := by
    intro i j
    have := cell_replicate d w i j
    show ((cell (List.replicate d (List.replicate w 0)) i j : Nat) : Int) ≤ 0
    omega
  have key : ∀ cs : List Call, (∀ x c, Call.update x c ∈ cs → 0 ≤ c) →
      sumCounts cs < 4294967296 →
      ((runCalls (init w d hashes) cs).total : Int) = sumCounts cs ∧
      (∀ i j, cell (runCalls (init w d hashes) cs).C i j ≤ (runCalls (init w d hashes) cs).total) ∧
      (∀ x, (runCalls (init w d hashes) cs).estimate x ≤ (runCalls (init w d hashes) cs).total)
      := by
    intro cs h1 h2
    obtain ⟨a1, a2, a3⟩ := runCalls_cells_le cs (init w d hashes) 0 hwf hd0 rfl h1
      (by omega) hz
    have hcell : ∀ i j, cell (runCalls (init w d hashes) cs).C i j ≤
        (runCalls (init w d hashes) cs).total := by
      intro i j
      have := a3 i j
      omega
    refine ⟨by omega, hcell, ?_⟩
    intro x
    have hle := estimateLoop_le_cell (runCalls (init w d hashes) cs) x
      (runCalls (init w d hashes) cs).d 0 (by rw [a2]; exact hd)
    exact le_trans hle (hcell _ _)
  obtain ⟨_, k2, k3⟩ := key calls hnn htot
  refine ⟨k2, k3, ?_⟩
  intro pre x c rest hsplit
  have hc : 0 ≤ c := hnn x c (by rw [hsplit]; simp)
  have hrest : 0 ≤ sumCounts rest :=
    sumCounts_nonneg rest (fun y e h => hnn y e (by rw [hsplit]; simp [h]))
  have hpre : ∀ y e, Call.update y e ∈ pre → 0 ≤ e :=
    fun y e h => hnn y e (by rw [hsplit]; simp [h])
  have hpre0 := sumCounts_nonneg pre hpre
  have hsum : sumCounts calls = sumCounts pre + (c + sumCounts rest) := by
    rw [hsplit, sumCounts_append]; rfl
  obtain ⟨p1, _, p3⟩ := key pre hpre (by omega)
  have := p3 x
  omega

/-- An instance of C20: updates, a reset and a further update on a fresh
sketch of depth 2 and width 4. -/
theorem cells_le_totalcount_witness :
    (∀ i j, cell (runCalls (init 4 2 [(1, 1), (2, 1)])
        [Call.update 2 1, Call.update 0 5, Call.reset, Call.update 0 0, Call.update 7 3]).C i j ≤
      (runCalls (init 4 2 [(1, 1), (2, 1)])
        [Call.update 2 1, Call.update 0 5, Call.reset, Call.update 0 0, Call.update 7 3]).totalcount)
    ∧ (runCalls (init 4 2 [(1, 1), (2, 1)])
        [Call.update 2 1, Call.update 0 5, Call.reset, Call.update 0 0, Call.update 7 3]).totalcount
      = 9 :=
  ⟨(cells_le_totalcount 4 2 [(1, 1), (2, 1)] (by decide) (by decide) (by decide) rfl
      [Call.update 2 1, Call.update 0 5, Call.reset, Call.update 0 0, Call.update 7 3]
      (by
        intro x c h
        simp only [List.mem_cons, Call.update.injEq, List.mem_singleton, List.not_mem_nil,
          or_false, reduceCtorEq, false_or] at h
        rcases h with ⟨_, rfl⟩ | ⟨_, rfl⟩ | ⟨_, rfl⟩ | ⟨_, rfl⟩ <;> decide)
      (by decide)).1,
    by decide⟩

/-! ## Text keys, the projection and the error bound -/

namespace CountMinSketch

theorem getD_hashes_bound (s : CountMinSketch) (A B : Nat)
    (hb : ∀ p ∈ s.hashes, p.1 ≤ A ∧ p.2 ≤ B) (j : Nat) :
    (s.hashes.getD j (0, 0)).1 ≤ A ∧ (s.hashes.getD j (0, 0)).2 ≤ B := by
  by_cases hj : j < s.hashes.length
  · rw [List.getD_eq_getElem _ _ hj]
    exact hb _ (List.getElem_mem hj)
  · rw [List.getD_eq_default _ _ (by omega)]
    exact ⟨Nat.zero_le _, Nat.zero_le _⟩

/-- The items `0` and `LONG_PRIME` project to the same column in every row
whose multiplier is at most `2^32 - 16`: the product does not wrap and the
reduction modulo `LONG_PRIME` removes it. -/
theorem hashval_alias (s : CountMinSketch)
    (hb : ∀ p ∈ s.hashes, p.1 ≤ 4294967280 ∧ p.2 ≤ 4294967311) (j : Nat) :
    hashval s j 4294967311 = hashval s j 0 := by
  obtain ⟨h1, h2⟩ := getD_hashes_bound s 4294967280 4294967311 hb j
  unfold hashval LONG_PRIME
  have hmul : (s.hashes.getD j (0, 0)).1 * 4294967311 ≤ 4294967280 * 4294967311 :=
    Nat.mul_le_mul_right _ h1
  have e1 : ((s.hashes.getD j (0, 0)).1 * 4294967311 + (s.hashes.getD j (0, 0)).2)
      % 18446744073709551616 =
      (s.hashes.getD j (0, 0)).1 * 4294967311 + (s.hashes.getD j (0, 0)).2 :=
    Nat.mod_eq_of_lt (by omega)
  have e2 : ((s.hashes.getD j (0, 0)).1 * 0 + (s.hashes.getD j (0, 0)).2)
      % 18446744073709551616 = (s.hashes.getD j (0, 0)).2 := by
    rw [Nat.mul_zero, Nat.zero_add]
    exact Nat.mod_eq_of_lt (by omega)
  rw [e1, e2]
  congr 1
  omega

theorem estimateLoop_alias (t : CountMinSketch) (x y : Nat)
    (h : ∀ j, hashval t j x = hashval t j y) (n : Nat) :
    estimateLoop t x n = estimateLoop t y n := by
  induction n with
  | zero => rfl
  | succ n ih => simp only [estimateLoop, ih, h n]

/-- After `update(LONG_PRIME, c)` on a zeroed sketch whose multipliers are at
most `2^32 - 16`, the item `0`, never inserted, is estimated at `c`. -/
theorem estimate_alias_after_update (s : CountMinSketch) (hwf : s.WF) (hd : 1 ≤ s.d)
    (hzero : ∀ i j, cell s.C i j = 0)
    (hb : ∀ p ∈ s.hashes, p.1 ≤ 4294967280 ∧ p.2 ≤ 4294967311)
    (c : Nat) (hc2 : c < 4294967296) :
    (s.update 4294967311 (c : Int)).estimate 0 = c := by
  have hal : ∀ j, hashval (s.update 4294967311 (c : Int)) j 0 =
      hashval (s.update 4294967311 (c : Int)) j 4294967311 :=
    fun j => (hashval_alias s hb j).symm
  have h0 : s.estimate 4294967311 = 0 := estimate_zero_of_cells_zero s hd hzero _
  show estimateLoop (s.update 4294967311 (c : Int)) 0 s.d = c
  rw [estimateLoop_alias _ 0 4294967311 hal]
  show (s.update 4294967311 (c : Int)).estimate 4294967311 = c
  rw [estimate_update_self s hwf hd, h0]
  unfold toU32
  omega

theorem hashstrLoop_eq (charSigned : Bool) (str : List Nat) (hnz : ∀ b ∈ str, b ≠ 0) :
    ∀ hash : Nat, hash < 18446744073709551616 →
      ((hashstrLoop charSigned hash str : Nat) : Int) =
        (str.map (charToInt charSigned)).foldl
          (fun h v => (33 * h + v) % 18446744073709551616) (hash : Int) := by
  induction str with
  | nil => intro hash _; rfl
  | cons b bs ih =>
    intro hash hlt
    have hb : b ≠ 0 := hnz b (List.mem_cons_self _ _)
    simp only [hashstrLoop, if_neg hb, List.map_cons, List.foldl_cons]
    rw [ih (fun x hx => hnz x (List.mem_cons_of_mem _ hx)) _ (Nat.mod_lt _ (by norm_num))]
    congr 1
    unfold toU64
    omega

theorem map_charToInt_of_low (charSigned : Bool) (str : List Nat)
    (h : charSigned = false ∨ ∀ b ∈ str, b < 128) :
    str.map (charToInt charSigned) = str.map (fun b : Nat => (b : Int)) := by
  apply List.map_congr_left
  intro b hb
  unfold charToInt
  rcases h with h | h
  · simp [h]
  · have := h b hb
    rw [if_neg (by omega)]

end CountMinSketch

/-- C16, on the code: `hashstr` reads the string through `const char *`, so
where `char` is signed a byte of `0x80` or more enters the sum as the byte
minus 256.  For the one-byte string of byte `0xff` the code then returns
`33 * 5381 - 1 = 177572`, while djb2 over the bytes, which the comment on
`hashstr` names, gives `33 * 5381 + 255 = 177828` (as the code does where
`char` is unsigned).  In general, for a NUL-free string, `hashstr` is the
djb2 recurrence over the `int` values of the chars; it is the recurrence over
the bytes when `char` is unsigned or every byte is below `0x80`.  The empty
string gives 5381, and the text forms of `update` and `estimate` are the
integer forms at `hashstr(s)`. -/
theorem hashstr_sign_extends_high_bytes :
    hashstr true [255] = 177572 ∧ djb2Spec [255] = 177828 ∧ hashstr false [255] = 177828 ∧
    (∀ (charSigned : Bool) (str : List Nat), (∀ b ∈ str, b ≠ 0) →
      ((hashstr charSigned str : Nat) : Int) = djb2Spec (str.map (charToInt charSigned))) ∧
    (∀ (charSigned : Bool) (str : List Nat), (∀ b ∈ str, b ≠ 0) →
      (charSigned = false ∨ ∀ b ∈ str, b < 128) →
      ((hashstr charSigned str : Nat) : Int) = djb2Spec (str.map (fun b : Nat => (b : Int)))) ∧
    (∀ charSigned : Bool, hashstr charSigned [] = 5381) ∧
    (∀ (s : CountMinSketch) (charSigned : Bool) (str : List Nat) (c : Int),
      s.updateStr charSigned str c = s.update (hashstr charSigned str) c) ∧
    (∀ (s : CountMinSketch) (charSigned : Bool) (str : List Nat),
      s.estimateStr charSigned str = s.estimate (hashstr charSigned str)) := by
  have h1 : ∀ (charSigned : Bool) (str : List Nat), (∀ b ∈ str, b ≠ 0) →
      ((hashstr charSigned str : Nat) : Int) = djb2Spec (str.map (charToInt charSigned)) :=
    fun charSigned str hnz => hashstrLoop_eq charSigned str hnz 5381 (by norm_num)
  refine ⟨by decide, by decide, by decide, h1, ?_, fun _ => rfl, fun _ _ _ _ => rfl,
    fun _ _ _ => rfl⟩
  intro charSigned str hnz h
  rw [h1 charSigned str hnz, map_charToInt_of_low charSigned str h]

/-- C17, on the code: the key is a `uint64_t` but the hash field has only
`LONG_PRIME`, about `2^32`, elements, so the items `0` and `LONG_PRIME`
share their column in every row whenever the multipliers are at most
`2^32 - 16`.  On a fresh default sketch, after the single call
`update(4294967311, 100)` the item `0`, whose true count is `0`, is estimated
at `100`, above `eps * N = 0.01 * 100`; and the same holds on every zeroed
sketch with such multipliers, for every count.  Of the multipliers in
`[1, LONG_PRIME - 1]` all but 30 are at most `2^32 - 16`, so for five rows
the share of parameter choices on which the bound fails is at least
`(4294967280 / 4294967310)^5`, far above `gamma = 0.01`. -/
theorem error_bound_fails_for_aliased_items :
    (CircularCMS.sketch0.update 4294967311 100).estimate 0 = 100 ∧
    trueCount 0 [(4294967311, 100)] = 0 ∧ totalWeight [(4294967311, 100)] = 100 ∧
    FLOAT_0_01 * 100 < 100 - 0 ∧
    FLOAT_0_01 < ((4294967280 : ℚ) / 4294967310) ^ 5 ∧
    (∀ s : CountMinSketch, s.WF → 1 ≤ s.d → (∀ i j, cell s.C i j = 0) →
      (∀ p ∈ s.hashes, p.1 ≤ 4294967280 ∧ p.2 ≤ 4294967311) →
      ∀ c : Nat, c < 4294967296 → (s.update 4294967311 (c : Int)).estimate 0 = c) := by
  refine ⟨?_, by decide, by decide, by norm_num [FLOAT_0_01], by norm_num [FLOAT_0_01], ?_⟩
  · exact estimate_alias_after_update CircularCMS.sketch0 CircularCMS.sketch0_WF
      CircularCMS.sketch0_d (fun i j => cell_replicate 5 272 i j) (by decide) 100 (by decide)
  · intro s hwf hd hz hb c hc
    exact estimate_alias_after_update s hwf hd hz hb c hc

/-- C18, as stated, fails: with the hash pair `(2^32, 1)` in row 0 of a sketch
of width 272 and the item `2^32`, the product `2^64` wraps to `0`, so the code
uses column `1`, while the formula over the integers gives
`(2^64 + 1) mod 4294967311 mod 272 = 226`. -/
theorem projection_wraps_at_two_pow_64 :
    hashval (init 272 5 [(4294967296, 1), (2, 1), (3, 1), (4, 1), (5, 1)]) 0 4294967296 = 1 ∧
    (4294967296 * 4294967296 + 1) % 4294967311 % 272 = 226 := by
  decide

/-- C18 (amended): for every item and every row `j` with hash pair
`(a_j, b_j)`, the column index used by `estimate` and by `update` is
`((a_j * item + b_j) mod 2^64) mod P mod w` with `P = 4294967311`: the product
and the sum are formed in `uint64_t`.  It is `(a_j * item + b_j) mod P mod w`
whenever `a_j * item + b_j < 2^64`. -/
theorem projection_formula_mod_two_pow_64 (s : CountMinSketch) (j item : Nat) :
    LONG_PRIME = 4294967311 ∧
    hashval s j item =
      (((s.hashes.getD j (0, 0)).1 * item + (s.hashes.getD j (0, 0)).2)
        % 18446744073709551616) % 4294967311 % s.w ∧
    ((s.hashes.getD j (0, 0)).1 * item + (s.hashes.getD j (0, 0)).2 < 18446744073709551616 →
      hashval s j item =
        ((s.hashes.getD j (0, 0)).1 * item + (s.hashes.getD j (0, 0)).2) % 4294967311 % s.w) ∧
    estimateLoop s item (j + 1) =
      min (estimateLoop s item j) (cell s.C j (hashval s j item)) ∧
    (∀ nv, updateLoop s item nv (j + 1) =
      if cell (updateLoop s item nv j) j (hashval s j item % 4294967296) < nv then
        setCell (updateLoop s item nv j) j (hashval s j item % 4294967296) nv
      else updateLoop s item nv j) ∧
    (s.WF → hashval s j item % 4294967296 = hashval s j item) := by
  refine ⟨rfl, rfl, ?_, rfl, fun _ => rfl, fun hwf => hashval_mod s hwf j item⟩
  intro hlt
  unfold hashval LONG_PRIME
  rw [Nat.mod_eq_of_lt hlt]

/-! ## Lemmas on windows and shards -/

namespace CircularCMS

/-- The value `update` returns is `-1` exactly when the guard fires, and then
the state is returned as it was. -/
theorem update_eq_some_neg_one (s s' : CircularCMS) (item : Nat) (idx c : Int) :
    s.update item idx c = some (s', -1) ↔ (idx > (s.counters_.length : Int) ∧ s' = s) := by
  unfold update
  by_cases hg : idx > (s.counters_.length : Int)
  · rw [if_pos hg]
    constructor
    · intro h
      injection h with h
      injection h with h1 h2
      exact ⟨hg, h1.symm⟩
    · rintro ⟨_, rfl⟩; rfl
  · rw [if_neg hg]
    constructor
    · intro h
      exfalso
      simp only [Option.bind_eq_some, Option.map_eq_some', Prod.mk.injEq] at h
      obtain ⟨_, _, _, _, _, h2⟩ := h
      exact absurd h2 (by decide)
    · rintro ⟨h, _⟩; exact absurd h hg

theorem update_length (s s' : CircularCMS) (item : Nat) (idx c r : Int)
    (h : s.update item idx c = some (s', r)) : s'.counters_.length = s.counters_.length := by
  unfold update at h
  by_cases hg : idx > (s.counters_.length : Int)
  · rw [if_pos hg] at h
    injection h with h
    injection h with h1 h2
    rw [← h1]
  · rw [if_neg hg] at h
    simp only [Option.bind_eq_some, Option.map_eq_some', Prod.mk.injEq] at h
    obtain ⟨s1, hs1, k, _, hk, _⟩ := h
    rw [← hk]
    simp only [List.length_set]
    by_cases hne : idx ≠ s.current_counter_index_
    · rw [if_pos hne] at hs1
      simp only [Option.map_eq_some'] at hs1
      obtain ⟨_, _, rfl⟩ := hs1
      simp
    · rw [if_neg hne] at hs1
      injection hs1 with hs1
      rw [← hs1]

theorem estimate_of_sum_lt (s : CircularCMS) (x : Nat)
    (h : (s.counters_.map (fun k => k.estimate x)).sum < 2147483648) :
    s.estimate x = ((s.counters_.map (fun k => k.estimate x)).sum : Nat) := by
  rw [estimate_eq_sum]
  unfold toI32
  split_ifs <;> omega

end CircularCMS

namespace MultiCMS

theorem foldl_addInt32 (f : CircularCMS → Int) (l : List CircularCMS) :
    ∀ acc : Int, 0 ≤ acc → (∀ win ∈ l, 0 ≤ f win) → acc + (l.map f).sum < 2147483648 →
      l.foldl (fun acc win => acc.bind fun count => addInt32 count (f win)) (some acc) =
        some (acc + (l.map f).sum) := by
  induction l with
  | nil => intro acc _ _ _; simp
  | cons a as ih =>
    intro acc h0 hnn hlt
    have ha := hnn a (List.mem_cons_self _ _)
    have has : ∀ win ∈ as, 0 ≤ f win := fun win hw => hnn win (List.mem_cons_of_mem _ hw)
    have hsum : 0 ≤ (as.map f).sum :=
      List.sum_nonneg (by
        intro v hv
        obtain ⟨win, hw, rfl⟩ := List.mem_map.mp hv
        exact has win hw)
    simp only [List.map_cons, List.sum_cons] at hlt
    have hadd : addInt32 acc (f a) = some (acc + f a) := by
      unfold addInt32
      rw [if_pos ⟨by omega, by omega⟩]
    simp only [List.foldl_cons, Option.some_bind, hadd, List.map_cons, List.sum_cons]
    rw [ih (acc + f a) (by omega) has (by omega)]
    congr 1
    omega

/-- The shard estimate when every window sum and the sum over the shards fit
in an `int`. -/
theorem estimate_of_sums_lt (m : MultiCMS) (x : Nat)
    (hwin : ∀ win ∈ m.counters_, (win.counters_.map (fun k => k.estimate x)).sum < 2147483648)
    (htot : ((m.counters_.map (fun win => win.estimate x)).sum : Int) < 2147483648) :
    m.estimate x = some ((m.counters_.map (fun win => win.estimate x)).sum) := by
  have h := foldl_addInt32 (fun win => win.estimate x) m.counters_ 0 (le_refl _)
    (by
      intro win hw
      show 0 ≤ win.estimate x
      rw [CircularCMS.estimate_of_sum_lt win x (hwin win hw)]
      exact Int.ofNat_nonneg _)
    (by omega)
  unfold estimate
  rw [h]
  congr 1
  omega

theorem shard_update_eq_some_neg_one (m m' : MultiCMS) (ts id : Int) (item : Nat) (c : Int)
    (h : m.update ts id item c = some (m', -1)) : m' = m := by
  unfold update at h
  by_cases h0 : m.count_interval_seconds_ = 0
  · rw [if_pos h0] at h; exact absurd h (by simp)
  · rw [if_neg h0] at h
    by_cases hg : id < 0 ∨ id ≥ m.num_thread_ ∨
        bucketIndex ts m.count_interval_seconds_ ≥ m.num_counter_
    · rw [if_pos hg] at h
      injection h with h
      injection h with h1 h2
      exact h1.symm
    · rw [if_neg hg] at h
      simp only [Option.bind_eq_some, Option.map_eq_some'] at h
      obtain ⟨win, hwin, r, hr, hm⟩ := h
      obtain ⟨r1, r2⟩ := r
      simp only [Prod.mk.injEq] at hm
      obtain ⟨hm1, hm2⟩ := hm
      subst hm2
      have := (CircularCMS.update_eq_some_neg_one win r1 item _ c).mp hr
      obtain ⟨_, rfl⟩ := this
      rw [← hm1]
      have hset : m.counters_.set id.toNat r1 = m.counters_ := by
        apply List.ext_getElem?
        intro i
        rw [List.getElem?_set]
        split_ifs with h1 h2
        · rw [← h1, hwin]
        · have : m.counters_[id.toNat]? = none := by
            rw [List.getElem?_eq_none_iff]; omega
          rw [this] at hwin; exact absurd hwin (by simp)
        · rfl
      rw [hset]

theorem bucketIndex_eq (ts i : Int) (ht : 0 ≤ ts) (hi : 1 ≤ i) :
    bucketIndex ts i = (ts % 3600) / i := by
  unfold bucketIndex
  rw [Int.tmod_eq_emod ht (by omega), Int.tdiv_eq_ediv (by omega) (by omega)]

theorem bucketCount_spec (i : Int) (hi : 1 ≤ i) :
    (bucketCount i - 1) * i < 3600 ∧ 3600 ≤ bucketCount i * i := by
  unfold bucketCount
  have h1 := Int.emod_add_ediv (3600 + i - 1) i
  have h2 := Int.emod_nonneg (3600 + i - 1) (by omega : i ≠ 0)
  have h3 := Int.emod_lt_of_pos (3600 + i - 1) (by omega : 0 < i)
  constructor
  · nlinarith
  · nlinarith

theorem bucketCount_pos (i : Int) (hi : 1 ≤ i) : 1 ≤ bucketCount i := by
  have h := (bucketCount_spec i hi).2
  by_contra hlt
  have : bucketCount i ≤ 0 := by omega
  nlinarith

/-- The derived bucket index is below the bucket count for every clock value. -/
theorem bucketIndex_lt (ts i : Int) (hi : 1 ≤ i) :
    bucketIndex ts i < bucketCount i := by
  have hpos := bucketCount_pos i hi
  by_cases ht : 0 ≤ ts
  · rw [bucketIndex_eq ts i ht hi]
    have h1 := Int.emod_nonneg ts (by omega : (3600 : Int) ≠ 0)
    have h2 := Int.emod_lt_of_pos ts (by omega : (0 : Int) < 3600)
    have h3 := Int.ediv_mul_le (ts % 3600) (by omega : i ≠ 0)
    have h4 := (bucketCount_spec i hi).2
    by_contra hge
    have : bucketCount i ≤ ts % 3600 / i := by omega
    nlinarith
  · have hneg : bucketIndex ts i ≤ 0 := by
      unfold bucketIndex
      rcases ts with n | n
      · exact absurd (Int.ofNat_nonneg n) ht
      · have e : Int.tmod (Int.negSucc n) 3600 = -(((n + 1) % 3600 : Nat) : Int) := rfl
        rw [e, Int.neg_tdiv]
        have := Int.tdiv_nonneg (Int.ofNat_nonneg ((n + 1) % 3600)) (by omega : 0 ≤ i)
        omega
    omega

/-- With an interval of 3600 seconds the derived bucket index is 0 for every
clock value, negative ones included. -/
theorem bucketIndex_3600 (ts : Int) : bucketIndex ts 3600 = 0 := by
  unfold bucketIndex
  rcases ts with n | n
  · have e : Int.tmod (Int.ofNat n) 3600 = ((n % 3600 : Nat) : Int) := rfl
    rw [e, Int.tdiv_eq_ediv (Int.ofNat_nonneg _) (by decide)]
    have := Nat.mod_lt n (by decide : 0 < 3600)
    omega
  · have e : Int.tmod (Int.negSucc n) 3600 = -(((n + 1) % 3600 : Nat) : Int) := rfl
    rw [e, Int.neg_tdiv, Int.tdiv_eq_ediv (Int.ofNat_nonneg _) (by decide)]
    have := Nat.mod_lt (n + 1) (by decide : 0 < 3600)
    omega

theorem bucketIndex_nonneg (ts i : Int) (ht : 0 ≤ ts) (hi : 1 ≤ i) : 0 ≤ bucketIndex ts i := by
  unfold bucketIndex
  exact Int.tdiv_nonneg (Int.tmod_nonneg 3600 ht) (by omega)

theorem bucketCount_eq_ceil (i : Int) (hi : 1 ≤ i) :
    bucketCount i = ⌈(3600 : ℚ) / (i : ℚ)⌉ := by
  obtain ⟨h1, h2⟩ := bucketCount_spec i hi
  have hi0 : (0 : ℚ) < (i : ℚ) := by exact_mod_cast (by omega : (0 : Int) < i)
  symm
  rw [Int.ceil_eq_iff]
  constructor
  · rw [lt_div_iff₀ hi0]
    exact_mod_cast h1
  · rw [div_le_iff₀ hi0]
    exact_mod_cast h2

/-- The effect of `update` on a shard id outside `[0, num_thread_)`. -/
theorem update_bad_thread (m : MultiCMS) (hwf : m.WF) (ts id : Int) (item : Nat) (c : Int)
    (hid : id < 0 ∨ id ≥ m.num_thread_) : m.update ts id item c = some (m, -1) := by
  have h0 : ¬ m.count_interval_seconds_ = 0 := by have := hwf.1; omega
  unfold update
  rw [if_neg h0, if_pos]
  rcases hid with h | h
  · exact Or.inl h
  · exact Or.inr (Or.inl h)

/-- The effect of `update` on a shard id inside `[0, num_thread_)`. -/
theorem update_good_thread (m : MultiCMS) (hwf : m.WF) (ts : Int) (k : Nat) (item : Nat)
    (c : Int) (hk : k < m.counters_.length) :
    m.update ts (k : Int) item c =
      ((m.counters_[k]).update item (bucketIndex ts m.count_interval_seconds_) c).map fun r =>
        ({ m with counters_ := m.counters_.set k r.1 }, r.2) := by
  obtain ⟨h1, h2, h3, h4, h5⟩ := hwf
  have h0 : ¬ m.count_interval_seconds_ = 0 := by omega
  have hb := bucketIndex_lt ts m.count_interval_seconds_ h1
  have hg : ¬ ((k : Int) < 0 ∨ (k : Int) ≥ m.num_thread_ ∨
      bucketIndex ts m.count_interval_seconds_ ≥ m.num_counter_) := by
    rw [h4]
    omega
  unfold update
  rw [if_neg h0, if_neg hg]
  simp [hk]

theorem construct_ok (M i : Int) (w d : Nat) (hs : Nat → Nat → List (Nat × Nat))
    (hM : 0 ≤ M) (hi : 1 ≤ i) (hi2 : i ≤ 3600) :
    construct M i w d hs = Except.ok
      { num_counter_ := bucketCount i,
        num_thread_ := M,
        count_interval_seconds_ := i,
        counters_ := (List.range M.toNat).map fun t =>
          CircularCMS.init (bucketCount i) w d (hs t) } := by
  unfold construct
  rw [if_neg (by omega), if_neg (by omega)]

theorem construct_WF (M i : Int) (w d : Nat) (hs : Nat → Nat → List (Nat × Nat))
    (m : MultiCMS) (h : construct M i w d hs = Except.ok m) :
    0 ≤ M ∧ 1 ≤ i ∧ i ≤ 3600 ∧ m.counters_.length = M.toNat ∧ m.WF := by
  unfold construct at h
  by_cases hg : M < 0 ∨ i < 0 ∨ i > 3600
  · rw [if_pos hg] at h; exact absurd h (by simp)
  · rw [if_neg hg] at h
    by_cases h0 : i = 0
    · rw [if_pos h0] at h; exact absurd h (by simp)
    · rw [if_neg h0] at h
      injection h with h
      subst h
      have hbc := bucketCount_pos i (by omega)
      have hi1 : 1 ≤ i := by omega
      have hi2 : i ≤ 3600 := by omega
      refine ⟨by omega, hi1, hi2, by simp, hi1, hi2, ?_, rfl, ?_⟩
      · simp only [List.length_map, List.length_range]
        omega
      · intro win hw
        simp only [List.mem_map, List.mem_range] at hw
        obtain ⟨t, _, rfl⟩ := hw
        simp only [CircularCMS.init, List.length_map, List.length_range]
        omega

theorem shard2_eq : construct 2 60 272 5 (fun _ _ => CircularCMS.hashes5) = Except.ok shard2 :=
  rfl

theorem shard2_WF : shard2.WF := (construct_WF 2 60 272 5 _ shard2 shard2_eq).2.2.2.2

/-- The shape of a shard is kept by `update`. -/
theorem shard_update_WF (m m' : MultiCMS) (hwf : m.WF) (ts id : Int) (item : Nat) (c r : Int)
    (h : m.update ts id item c = some (m', r)) : m'.WF := by
  by_cases hid : id < 0 ∨ id ≥ m.num_thread_
  · rw [update_bad_thread m hwf ts id item c hid] at h
    injection h with h
    injection h with h1 h2
    rw [← h1]; exact hwf
  · have hk : id.toNat < m.counters_.length := by have := hwf.2.2.1; omega
    have e : id = (id.toNat : Int) := by omega
    rw [e, update_good_thread m hwf ts id.toNat item c hk] at h
    simp only [Option.map_eq_some'] at h
    obtain ⟨⟨w1, r1⟩, hw, hm⟩ := h
    injection hm with hm1 hm2
    have hlen := CircularCMS.update_length _ _ _ _ _ _ hw
    obtain ⟨h1, h2, h3, h4, h5⟩ := hwf
    rw [← hm1]
    refine ⟨h1, h2, ?_, h4, ?_⟩
    · simp only [List.length_set]; exact h3
    · intro win hmem
      rcases List.mem_or_eq_of_mem_set hmem with hm | hm
      · exact h5 win hm
      · rw [hm]
        show ((w1.counters_.length : Nat) : Int) = m.num_counter_
        rw [hlen]
        exact h5 _ (List.getElem_mem hk)

theorem sum_set_of_all_zero (f : CountMinSketch → Nat) (l : List CountMinSketch) (k : Nat)
    (v : CountMinSketch) (hk : k < l.length) (hz : ∀ a ∈ l, f a = 0) :
    ((l.set k v).map f).sum = f v := by
  rw [CircularCMS.sum_map_set f l k v hk]
  have h2 : ((l.eraseIdx k).map f).sum = 0 := by
    apply List.sum_eq_zero
    intro x hx
    obtain ⟨a, ha, rfl⟩ := List.mem_map.mp hx
    exact hz a (List.mem_of_mem_eraseIdx ha)
  omega

theorem win60_counters : win60.counters_ = List.replicate 60 CircularCMS.sketch0 := by
  show (List.range 60).map (fun _ => CircularCMS.sketch0) = List.replicate 60 CircularCMS.sketch0
  simp

theorem win60_length : 2 < win60.counters_.length := by rw [win60_counters]; simp

theorem win60_zero (x : Nat) : ∀ a ∈ win60.counters_, a.estimate x = 0 := by
  intro a ha
  rw [win60_counters] at ha
  rw [List.eq_of_mem_replicate ha]
  exact CircularCMS.sketch0_estimate x

theorem win60_sum (x : Nat) : (win60.counters_.map (fun k => k.estimate x)).sum = 0 := by
  apply List.sum_eq_zero
  intro v hv
  obtain ⟨a, ha, rfl⟩ := List.mem_map.mp hv
  exact win60_zero x a ha

theorem win60_estimate (x : Nat) : win60.estimate x = 0 := by
  rw [CircularCMS.estimate_of_sum_lt win60 x (by rw [win60_sum]; decide), win60_sum]
  rfl

theorem sketch0_update_estimate :
    ((CircularCMS.sketch0.reset).update 97 5).estimate 97 = 5 := by
  have h1 := CircularCMS.est_reset_update_self CircularCMS.sketch0 CircularCMS.sketch0_WF
    CircularCMS.sketch0_d 97 5 (by decide) (by decide)
  simp only [Nat.cast_ofNat] at h1
  exact h1

theorem win60a_sum :
    (((win60.counters_.set 2 ((CircularCMS.sketch0.reset).update 97 5)).map
      (fun k => k.estimate 97)).sum) = 5 :=
  (sum_set_of_all_zero _ _ _ _ win60_length (win60_zero 97)).trans sketch0_update_estimate

theorem win60a_counters_sum :
    (win60a.counters_.map (fun k => k.estimate 97)).sum = 5 := by
  simp only [win60a]
  exact win60a_sum

theorem win60a_estimate : win60a.estimate 97 = 5 := by
  rw [CircularCMS.estimate_of_sum_lt win60a 97 (by rw [win60a_counters_sum]; decide),
    win60a_counters_sum]
  rfl

theorem shard2a_sum : (shard2a.counters_.map (fun win => win.estimate 97)).sum = 5 := by
  simp only [shard2a, List.map_cons, List.map_nil, List.sum_cons, List.sum_nil,
    win60_estimate, win60a_estimate]
  rfl

theorem shard2a_windows : ∀ win ∈ shard2a.counters_,
    (win.counters_.map (fun k => k.estimate 97)).sum < 2147483648 := by
  intro win hw
  simp only [shard2a, List.mem_cons, List.mem_singleton, List.not_mem_nil, or_false] at hw
  rcases hw with rfl | rfl
  · rw [win60_sum]; decide
  · rw [win60a_counters_sum]; decide

theorem shard2_step : shard2.update 125 1 97 5 = some (shard2a, 0) := by
  have h := update_good_thread shard2 shard2_WF 125 1 97 5 (by decide)
  have hb : bucketIndex 125 shard2.count_interval_seconds_ = ((2 : Nat) : Int) := by decide
  have hw : shard2.counters_[1] = win60 := rfl
  have hlen := win60_length
  rw [hb, hw, CircularCMS.update_valid win60 97 2 5 hlen] at h
  have hcur : ¬ (((2 : Nat) : Int) = win60.current_counter_index_) := by decide
  have hget : win60.counters_[2] = CircularCMS.sketch0 := by
    simp [win60_counters]
  rw [if_neg hcur, hget] at h
  exact h

theorem shard2_bad : shard2.update 125 2 97 5 = some (shard2, -1) :=
  update_bad_thread shard2 shard2_WF 125 2 97 5 (Or.inr (by decide))

end MultiCMS

/-! ## The properties of the shards -/

/-- C11 (aggregated reads are sums): `estimate` of a window is the sum of
its buckets' estimates whenever that sum fits in an `int` (and that sum
reduced to a signed 32-bit integer in general).  When every window's sum and
the sum over the shards fit, `estimate` of a shard array is the sum over the
shards of the windows' estimates, which is 0 when there is no shard.  Neither
call changes the object. -/
theorem aggregated_reads_are_sums (m : MultiCMS) (x : Nat)
    (hwin : ∀ win ∈ m.counters_, (win.counters_.map (fun k => k.estimate x)).sum < 2147483648)
    (htot : ((m.counters_.map (fun win => win.estimate x)).sum : Int) < 2147483648) :
    (∀ s : CircularCMS,
      s.estimate x = toI32 ((s.counters_.map (fun k => k.estimate x)).sum) ∧
      ((s.counters_.map (fun k => k.estimate x)).sum < 2147483648 →
        s.estimate x = (((s.counters_.map (fun k => k.estimate x)).sum : Nat) : Int)) ∧
      (s.estimateCall x).1 = s) ∧
    m.estimate x = some ((m.counters_.map (fun win => win.estimate x)).sum) ∧
    (m.counters_ = [] → m.estimate x = some 0) ∧
    (m.estimateCall x).1 = m := by
  refine ⟨fun s => ⟨CircularCMS.estimate_eq_sum s x, CircularCMS.estimate_of_sum_lt s x, rfl⟩,
    MultiCMS.estimate_of_sums_lt m x hwin htot, ?_, rfl⟩
  intro h
  unfold MultiCMS.estimate
  rw [h]
  rfl

/-- An instance of C11 on `shard2a`: shard 0 holds nothing, bucket 2 of
shard 1 holds five occurrences of 97, and the shard array estimates 97 at 5. -/
theorem aggregated_reads_are_sums_witness :
    MultiCMS.shard2a.estimate 97 =
      some ((MultiCMS.shard2a.counters_.map (fun win => win.estimate 97)).sum) ∧
    MultiCMS.shard2a.estimate 97 = some 5 := by
  have hs := MultiCMS.shard2a_sum
  have h := (aggregated_reads_are_sums MultiCMS.shard2a 97 MultiCMS.shard2a_windows
    (by rw [hs]; decide)).2.1
  exact ⟨h, by rw [h, hs]⟩

/-- C12 (atomicity of index failures): whenever `update` of a window or of a
shard array returns `-1`, the object after the call is the object before it:
every grid, every running total and every active index is unchanged. -/
theorem index_failure_is_atomic :
    (∀ (s s' : CircularCMS) (item : Nat) (idx c : Int),
      s.update item idx c = some (s', -1) → s' = s) ∧
    (∀ (m m' : MultiCMS) (ts id : Int) (item : Nat) (c : Int),
      m.update ts id item c = some (m', -1) → m' = m) :=
  ⟨fun s s' item idx c h => ((CircularCMS.update_eq_some_neg_one s s' item idx c).mp h).2,
    fun m m' ts id item c h => MultiCMS.shard_update_eq_some_neg_one m m' ts id item c h⟩

/-- Two index failures, as C12 describes them: bucket index 4 in the
three-bucket `window3`, and shard id 2 in the two-shard `shard2`. -/
theorem index_failure_is_atomic_witness :
    (∃ s', CircularCMS.window3.update 97 4 1 = some (s', -1) ∧ s' = CircularCMS.window3) ∧
    (∃ m', MultiCMS.shard2.update 125 2 97 5 = some (m', -1) ∧ m' = MultiCMS.shard2) := by
  have e1 : CircularCMS.window3.update 97 4 1 = some (CircularCMS.window3, -1) :=
    (CircularCMS.update_eq_some_neg_one _ _ 97 4 1).mpr
      ⟨by rw [CircularCMS.window3_counters]; decide, rfl⟩
  exact ⟨⟨_, e1, index_failure_is_atomic.1 _ _ _ _ _ e1⟩,
    ⟨_, MultiCMS.shard2_bad, index_failure_is_atomic.2 _ _ _ _ _ _ MultiCMS.shard2_bad⟩⟩

/-- C13, the constructor's check on the code: it takes the error branch
exactly when `num_thread < 0`, `count_interval_seconds < 0` or
`count_interval_seconds > 3600`.  So an interval of 0 is not rejected: the
constructor goes on to `int(ceil(3600.0 / 0))`.  A shard count of 0 is
accepted, a negative one and an interval of 3601 are rejected, and a
constructed object holds exactly `num_thread` windows. -/
theorem shard_ctor_accepts_interval_zero :
    (∀ (w d : Nat) (hs : Nat → Nat → List (Nat × Nat)),
      MultiCMS.construct 1 0 w d hs = Except.error CtorError.undefinedBehaviour) ∧
    (∀ (M i : Int) (w d : Nat) (hs : Nat → Nat → List (Nat × Nat)),
      MultiCMS.construct M i w d hs = Except.error CtorError.rejected ↔
        (M < 0 ∨ i < 0 ∨ i > 3600)) ∧
    (∀ (M i : Int) (w d : Nat) (hs : Nat → Nat → List (Nat × Nat)) (m : MultiCMS),
      MultiCMS.construct M i w d hs = Except.ok m →
        0 ≤ M ∧ 1 ≤ i ∧ i ≤ 3600 ∧ m.counters_.length = M.toNat ∧ m.WF) ∧
    (∀ (w d : Nat) (hs : Nat → Nat → List (Nat × Nat)),
      MultiCMS.construct 0 60 w d hs = Except.ok
          { num_counter_ := 60, num_thread_ := 0, count_interval_seconds_ := 60,
            counters_ := [] } ∧
        MultiCMS.construct (-1) 60 w d hs = Except.error CtorError.rejected ∧
        MultiCMS.construct 1 3601 w d hs = Except.error CtorError.rejected) := by
  refine ⟨fun _ _ _ => rfl, ?_, MultiCMS.construct_WF, fun _ _ _ => ⟨rfl, rfl, rfl⟩⟩
  intro M i w d hs
  unfold MultiCMS.construct
  by_cases hg : M < 0 ∨ i < 0 ∨ i > 3600
  · simp [hg]
  · rw [if_neg hg]
    constructor
    · intro h
      exfalso
      by_cases h0 : i = 0
      · rw [if_pos h0] at h
        injection h with h
        exact absurd h (by decide)
      · rw [if_neg h0] at h
        exact absurd h (by simp)
    · intro h; exact absurd h hg

/-- C14 (bucket derivation is in range): for an interval from 1 to 3600 and
a non-negative clock value, the bucket count is the ceiling of
`3600 / interval`, the derived index `(t mod 3600) / interval` lies in
`[0, bucket count)`, the constructor builds windows of that many buckets, and
`update` of a constructed shard array with a valid shard id returns 0.  For
the interval 3600 the count is 1 and the index is 0 for every clock value,
negative ones included, so that `update` with a valid shard id then returns 0
at every clock value. -/
theorem bucket_index_in_range (i t : Int) (hi : 1 ≤ i) (hi2 : i ≤ 3600) (ht : 0 ≤ t) :
    MultiCMS.bucketCount i = ⌈(3600 : ℚ) / (i : ℚ)⌉ ∧
    MultiCMS.bucketIndex t i = (t % 3600) / i ∧
    0 ≤ MultiCMS.bucketIndex t i ∧ MultiCMS.bucketIndex t i < MultiCMS.bucketCount i ∧
    (∀ (M : Int) (w d : Nat) (hs : Nat → Nat → List (Nat × Nat)), 0 ≤ M →
      ∃ m, MultiCMS.construct M i w d hs = Except.ok m ∧ m.WF ∧
        m.count_interval_seconds_ = i ∧ m.num_counter_ = MultiCMS.bucketCount i) ∧
    (∀ (m : MultiCMS), m.WF → m.count_interval_seconds_ = i →
      ∀ (k : Nat) (item : Nat) (c : Int), k < m.counters_.length →
        ∃ m', m.update t (k : Int) item c = some (m', 0)) ∧
    MultiCMS.bucketCount 3600 = 1 ∧ (∀ t' : Int, MultiCMS.bucketIndex t' 3600 = 0) ∧
    (∀ (m : MultiCMS), m.WF → m.count_interval_seconds_ = 3600 →
      ∀ (t' : Int) (k : Nat) (item : Nat) (c : Int), k < m.counters_.length →
        ∃ m', m.update t' (k : Int) item c = some (m', 0)) := by
  have hlt := MultiCMS.bucketIndex_lt t i hi
  have hnn := MultiCMS.bucketIndex_nonneg t i ht hi
  refine ⟨MultiCMS.bucketCount_eq_ceil i hi, MultiCMS.bucketIndex_eq t i ht hi, hnn, hlt,
    ?_, ?_, by decide, MultiCMS.bucketIndex_3600, ?_⟩
  · intro M w d hs hM
    have hc := MultiCMS.construct_ok M i w d hs hM hi hi2
    exact ⟨_, hc, (MultiCMS.construct_WF M i w d hs _ hc).2.2.2.2, rfl, rfl⟩
  · intro m hwf hmi k item c hk
    rw [MultiCMS.update_good_thread m hwf t k item c hk, hmi]
    have hlen : ((m.counters_[k]).counters_.length : Int) = m.num_counter_ :=
      hwf.2.2.2.2 _ (List.getElem_mem hk)
    have hbc : m.num_counter_ = MultiCMS.bucketCount i := by rw [hwf.2.2.2.1, hmi]
    have hb : (MultiCMS.bucketIndex t i).toNat < (m.counters_[k]).counters_.length := by omega
    have e : MultiCMS.bucketIndex t i = ((MultiCMS.bucketIndex t i).toNat : Int) := by omega
    rw [e, CircularCMS.update_valid _ item _ c hb]
    exact ⟨_, rfl⟩
  · intro m hwf hmi t' k item c hk
    rw [MultiCMS.update_good_thread m hwf t' k item c hk, hmi, MultiCMS.bucketIndex_3600]
    have hlen : ((m.counters_[k]).counters_.length : Int) = m.num_counter_ :=
      hwf.2.2.2.2 _ (List.getElem_mem hk)
    have hbc : m.num_counter_ = MultiCMS.bucketCount 3600 := by rw [hwf.2.2.2.1, hmi]
    have h1 : MultiCMS.bucketCount 3600 = 1 := by decide
    have hb : 0 < (m.counters_[k]).counters_.length := by omega
    have e : (0 : Int) = ((0 : Nat) : Int) := rfl
    rw [e, CircularCMS.update_valid _ item 0 c hb]
    exact ⟨_, rfl⟩

/-- An instance of C14: an interval of 7 seconds gives 515 buckets, and the
clock value 1234567 falls in bucket 481; with an interval of 3600 seconds the
clock values 1234567 and -5 both fall in bucket 0. -/
theorem bucket_index_in_range_witness :
    MultiCMS.bucketCount 7 = ⌈(3600 : ℚ) / ((7 : Int) : ℚ)⌉ ∧ MultiCMS.bucketCount 7 = 515 ∧
    MultiCMS.bucketIndex 1234567 7 = 481 ∧
    MultiCMS.bucketIndex 1234567 7 < MultiCMS.bucketCount 7 ∧
    MultiCMS.bucketIndex 1234567 3600 = 0 ∧ MultiCMS.bucketIndex (-5) 3600 = 0 :=
  ⟨(bucket_index_in_range 7 1234567 (by decide) (by decide) (by decide)).1, by decide,
    by decide, (bucket_index_in_range 7 1234567 (by decide) (by decide) (by decide)).2.2.2.1,
    (bucket_index_in_range 7 1234567 (by decide) (by decide) (by decide)).2.2.2.2.2.2.2.1
      1234567,
    (bucket_index_in_range 7 1234567 (by decide) (by decide) (by decide)).2.2.2.2.2.2.2.1
      (-5)⟩

/-- C15 (shard update routing): on a constructed shard array, at any clock
value, `update(shard_id, item, c)` returns `-1` exactly when `shard_id < 0`
or `shard_id >= num_thread_`, and then changes nothing.  For a shard id `k`
in range it is `update(item, b, c)` of window `k`, `b` being the derived
bucket index: same returned value, window `k` replaced by the updated window,
and every other window unchanged. -/
theorem shard_update_routing (m : MultiCMS) (hwf : m.WF) (ts id : Int) (item : Nat) (c : Int) :
    ((∃ m', m.update ts id item c = some (m', -1)) ↔ (id < 0 ∨ id ≥ m.num_thread_)) ∧
    ((id < 0 ∨ id ≥ m.num_thread_) → m.update ts id item c = some (m, -1)) ∧
    (∀ k : Nat, id = (k : Int) → k < m.counters_.length →
      ∃ win, m.counters_[k]? = some win ∧
        m.update ts id item c =
          (win.update item (MultiCMS.bucketIndex ts m.count_interval_seconds_) c).map
            (fun r => ({ m with counters_ := m.counters_.set k r.1 }, r.2)) ∧
        ∀ m' r, m.update ts id item c = some (m', r) →
          m'.WF ∧ ∀ j, j ≠ k → m'.counters_[j]? = m.counters_[j]?) := by
  have hgood : ∀ (k : Nat) (_ : id = (k : Int)) (hlt : k < m.counters_.length),
      m.update ts id item c =
        ((m.counters_[k]).update item (MultiCMS.bucketIndex ts m.count_interval_seconds_) c).map
          (fun r => ({ m with counters_ := m.counters_.set k r.1 }, r.2)) := by
    intro k hk hlt
    rw [hk]
    exact MultiCMS.update_good_thread m hwf ts k item c hlt
  refine ⟨⟨?_, fun h => ⟨m, MultiCMS.update_bad_thread m hwf ts id item c h⟩⟩,
    MultiCMS.update_bad_thread m hwf ts id item c, ?_⟩
  · rintro ⟨m', h⟩
    by_contra hid
    have hk : id.toNat < m.counters_.length := by have := hwf.2.2.1; omega
    have e : id = (id.toNat : Int) := by omega
    rw [hgood id.toNat e hk] at h
    simp only [Option.map_eq_some'] at h
    obtain ⟨⟨w1, r1⟩, hw, hm⟩ := h
    injection hm with hm1 hm2
    simp only at hm2
    subst hm2
    have hgt := ((CircularCMS.update_eq_some_neg_one _ _ _ _ _).mp hw).1
    have hlen : ((m.counters_[id.toNat]).counters_.length : Int) = m.num_counter_ :=
      hwf.2.2.2.2 _ (List.getElem_mem hk)
    have hb := MultiCMS.bucketIndex_lt ts m.count_interval_seconds_ hwf.1
    have hbc := hwf.2.2.2.1
    omega
  · intro k hk hlt
    refine ⟨m.counters_[k], by simp [hlt], hgood k hk hlt, ?_⟩
    intro m' r h
    refine ⟨MultiCMS.shard_update_WF m m' hwf ts id item c r h, ?_⟩
    intro j hj
    rw [hgood k hk hlt] at h
    simp only [Option.map_eq_some'] at h
    obtain ⟨⟨w1, r1⟩, _, hm⟩ := h
    injection hm with hm1 hm2
    rw [← hm1]
    simp only
    rw [List.getElem?_set_ne (fun e => hj e.symm)]

/-- Two instances of C15 on `shard2` at clock value 125, which falls in
bucket 2: shard id 1 is routed to window 1 and gives `shard2a`; shard id 2 is
out of range and changes nothing. -/
theorem shard_update_routing_witness :
    MultiCMS.shard2.update 125 1 97 5 = some (MultiCMS.shard2a, 0) ∧
    MultiCMS.shard2.update 125 2 97 5 = some (MultiCMS.shard2, -1) ∧
    ((∃ m', MultiCMS.shard2.update 125 2 97 5 = some (m', -1)) ↔
      ((2 : Int) < 0 ∨ (2 : Int) ≥ MultiCMS.shard2.num_thread_)) :=
  ⟨MultiCMS.shard2_step, MultiCMS.shard2_bad,
    (shard_update_routing MultiCMS.shard2 MultiCMS.shard2_WF 125 2 97 5).1⟩

end CMS
